import Mathlib

/-!
A shallow embedding of finfo, the file inspection utility.

File contents and Go strings read from files are byte sequences (`List Nat`, each
entry a byte value); texts produced by the program itself are `String`s.
Calls into the operating system and into external packages are explicit
arguments of the functions that make them.
-/

namespace Finfo

/-! ## Byte strings and the Go `strings` / `bufio` / `unicode/utf8` helpers -/

/-- A Go byte slice, or a Go string seen as its bytes. -/
abbrev Bytes := List Nat

/-- The bytes of an ASCII literal. -/
def ascii (s : String) : Bytes := s.toList.map Char.toNat

/-- Go `strings.HasPrefix`. -/
def HasPrefix (s pre : Bytes) : Bool := pre.isPrefixOf s

/-- Go `strings.Contains`: some suffix of `s` starts with `sub`. -/
def Contains : Bytes → Bytes → Bool
  | [], sub => HasPrefix [] sub
  | b :: s, sub => HasPrefix (b :: s) sub || Contains s sub

/-- Go `strings.TrimPrefix`. -/
def TrimPrefix (s pre : Bytes) : Bytes :=
  if HasPrefix s pre then s.drop pre.length else s

/-- The `dropCR` helper of `bufio.ScanLines`: one trailing carriage return is removed. -/
def dropCR (data : Bytes) : Bytes :=
  if data.getLast? = some 13 then data.dropLast else data

/-- First token of a `bufio.Scanner` with the default `ScanLines` split over `data`:
`none` when `Scan` reports no token (empty input), otherwise the bytes before the first
newline, or all of `data` when it holds none, without a trailing carriage return. -/
def scanFirstLine (data : Bytes) : Option Bytes :=
  if data.isEmpty then none else some (dropCR (data.takeWhile (fun b => b != 10)))

/-- The value `utf8.RuneError`. -/
def RuneError : Nat := 0xFFFD

/-- The tables `first` and `acceptRanges` of `unicode/utf8` for a non-ASCII lead byte:
the length of the encoding and the accepted range of the second byte; `none` for the
bytes that start no encoding. -/
def leadInfo (b : Nat) : Option (Nat × Nat × Nat) :=
  if 0xC2 ≤ b ∧ b ≤ 0xDF then some (2, 0x80, 0xBF)
  else if b = 0xE0 then some (3, 0xA0, 0xBF)
  else if 0xE1 ≤ b ∧ b ≤ 0xEC then some (3, 0x80, 0xBF)
  else if b = 0xED then some (3, 0x80, 0x9F)
  else if 0xEE ≤ b ∧ b ≤ 0xEF then some (3, 0x80, 0xBF)
  else if b = 0xF0 then some (4, 0x90, 0xBF)
  else if 0xF1 ≤ b ∧ b ≤ 0xF3 then some (4, 0x80, 0xBF)
  else if b = 0xF4 then some (4, 0x80, 0x8F)
  else none

/-- Go `utf8.DecodeRune`: the first rune of `s` and its width in bytes; an invalid or
short encoding gives `(RuneError, 1)`, the empty input `(RuneError, 0)`. -/
def DecodeRune : Bytes → Nat × Nat
  | [] => (RuneError, 0)
  | s0 :: rest =>
    if s0 < 0x80 then (s0, 1)
    else match leadInfo s0 with
      | none => (RuneError, 1)
      | some (sz, lo, hi) =>
        if rest.length + 1 < sz then (RuneError, 1)
        else match rest with
          | [] => (RuneError, 1)
          | s1 :: r1 =>
            if s1 < lo ∨ hi < s1 then (RuneError, 1)
            else if sz ≤ 2 then (((s0 &&& 0x1F) <<< 6) ||| (s1 &&& 0x3F), 2)
            else match r1 with
              | [] => (RuneError, 1)
              | s2 :: r2 =>
                if s2 < 0x80 ∨ 0xBF < s2 then (RuneError, 1)
                else if sz ≤ 3 then
                  (((s0 &&& 0x0F) <<< 12) ||| ((s1 &&& 0x3F) <<< 6) ||| (s2 &&& 0x3F), 3)
                else match r2 with
                  | [] => (RuneError, 1)
                  | s3 :: _ =>
                    if s3 < 0x80 ∨ 0xBF < s3 then (RuneError, 1)
                    else (((s0 &&& 0x07) <<< 18) ||| ((s1 &&& 0x3F) <<< 12)
                          ||| ((s2 &&& 0x3F) <<< 6) ||| (s3 &&& 0x3F), 4)

/-- Go `utf8.RuneStart`: the byte is not a continuation byte. -/
def RuneStart (b : Nat) : Bool := (b &&& 0xC0) != 0x80

/-- The backward scan of `utf8.DecodeLastRune`: starting at `start`, move down while
`start ≥ lim` and the byte there starts no rune. -/
def lastRuneStart (s : Bytes) (lim : Int) : Nat → Int → Int
  | 0, start => start
  | fuel + 1, start =>
    if start < lim then start
    else if RuneStart (s.getD start.toNat 0) then start
    else lastRuneStart s lim fuel (start - 1)

/-- Go `utf8.DecodeLastRune`: the last rune of `s` and its width. -/
def DecodeLastRune (s : Bytes) : Nat × Nat :=
  let stop : Int := s.length
  if stop = 0 then (RuneError, 0)
  else
    let r := s.getD (s.length - 1) 0
    if r < 0x80 then (r, 1)
    else
      let lim : Int := if stop - 4 < 0 then 0 else stop - 4
      let start := lastRuneStart s lim 4 (stop - 2)
      let start := if start < 0 then 0 else start
      let d := DecodeRune (s.drop start.toNat)
      if start + d.2 ≠ stop then (RuneError, 1) else d

/-- Go `unicode.IsSpace`: the Latin-1 cases and the `White_Space` table. -/
def IsSpace (r : Nat) : Bool :=
  if r ≤ 0xFF then
    r == 9 || r == 10 || r == 11 || r == 12 || r == 13 || r == 32 || r == 0x85 || r == 0xA0
  else
    r == 0x1680 || (0x2000 ≤ r && r ≤ 0x200A) || r == 0x2028 || r == 0x2029
      || r == 0x202F || r == 0x205F || r == 0x3000

/-- The `asciiSpace` table of package `strings`. -/
def asciiSpace (c : Nat) : Bool :=
  c == 9 || c == 10 || c == 11 || c == 12 || c == 13 || c == 32

/-- A byte that `strings.TrimSpace` may remove: ASCII white space, or a byte of a
multi-byte encoding. -/
def Spaceish (b : Nat) : Prop := asciiSpace b = true ∨ 0x80 ≤ b

instance (b : Nat) : Decidable (Spaceish b) := by
  unfold Spaceish
  infer_instance

/-- Go `strings.TrimLeftFunc s unicode.IsSpace`; at most `fuel` runes are removed. -/
def trimLeftSpace : Nat → Bytes → Bytes
  | 0, s => s
  | fuel + 1, s =>
    let (r, size) := DecodeRune s
    if size = 0 then s
    else if IsSpace r then trimLeftSpace fuel (s.drop size) else s

/-- Go `strings.TrimRightFunc s unicode.IsSpace`; at most `fuel` runes are removed. -/
def trimRightSpace : Nat → Bytes → Bytes
  | 0, s => s
  | fuel + 1, s =>
    let (r, size) := DecodeLastRune s
    if size = 0 then s
    else if IsSpace r then trimRightSpace fuel (s.take (s.length - size)) else s

/-- The second loop of `strings.TrimSpace`, run on the reversed remainder: trailing ASCII
space is removed byte by byte, and a byte outside ASCII hands over to `TrimRightFunc`. -/
def trimSpaceStop (whole : Bytes) : Nat → Bytes
  | 0 => []
  | stop + 1 =>
    let c := whole.getD stop 0
    if c ≥ 0x80 then trimRightSpace (stop + 1) (whole.take (stop + 1))
    else if asciiSpace c then trimSpaceStop whole stop
    else whole.take (stop + 1)

/-- Go `strings.TrimSpace`: leading ASCII space is removed byte by byte; at the first byte
outside ASCII the rest is handed to `TrimFunc`; then the same from the end. -/
def TrimSpace : Bytes → Bytes
  | [] => []
  | c :: s =>
    if c ≥ 0x80 then
      let t := trimLeftSpace (c :: s).length (c :: s)
      trimRightSpace t.length t
    else if asciiSpace c then TrimSpace s
    else trimSpaceStop (c :: s) (c :: s).length

/-- Go `utf8.Valid`. -/
def Valid : Bytes → Bool
  | [] => true
  | pi :: rest =>
    if pi < 0x80 then Valid rest
    else match leadInfo pi with
      | none => false
      | some (size, lo, hi) =>
        if rest.length + 1 < size then false
        else match rest with
          | [] => false
          | c1 :: r1 =>
            if c1 < lo ∨ hi < c1 then false
            else if size = 2 then Valid r1
            else match r1 with
              | [] => false
              | c2 :: r2 =>
                if c2 < 0x80 ∨ 0xBF < c2 then false
                else if size = 3 then Valid r2
                else match r2 with
                  | [] => false
                  | c3 :: r3 => if c3 < 0x80 ∨ 0xBF < c3 then false else Valid r3

/-! ## Binary64 arithmetic

A finite `float64` is the number `m * 2 ^ e`. Every operation below computes the exact
result and rounds it to 53 significant bits, ties to even, as IEEE 754 prescribes; the
exponent range is not modelled, which is sound for the magnitudes the program handles
(integers of 64 bits, their quotients by an integer, and their quotients by `2 ^ 30`). -/

/-- A finite binary64 value `m * 2 ^ e`. -/
structure F64 where
  m : Int
  e : Int
deriving DecidableEq, Repr

namespace F64

/-- The number of binary digits of `n`; at most `fuel` digits are counted. -/
def bitLen : Nat → Nat → Nat
  | 0, _ => 0
  | fuel + 1, n => if n = 0 then 0 else bitLen fuel (n / 2) + 1

/-- The position of the leading binary digit of `n` (zero for `n = 0`). -/
def log2 (n : Nat) : Nat := bitLen n n - 1

/-- The quotient `n / d` of two positive naturals rounded to 53 significant bits, ties to
even. The numerator is first scaled so that the integer quotient has 55 or 56 bits; the
extra bits and the remainder decide the rounding. -/
def roundPos (n d : Nat) : F64 :=
  let s : Int := 55 + (log2 d : Int) - (log2 n : Int)
  let num := if 0 ≤ s then n * 2 ^ s.toNat else n
  let den := if 0 ≤ s then d else d * 2 ^ (-s).toNat
  let q := num / den
  let sticky := decide (num % den ≠ 0)
  let k := log2 q + 1 - 53
  let hi := q / 2 ^ k
  let low := q % 2 ^ k
  let half := 2 ^ (k - 1)
  let up := decide (half < low) || (decide (low = half) && (sticky || decide (hi % 2 = 1)))
  ⟨if up then hi + 1 else hi, (k : Int) - s⟩

/-- The binary64 nearest to the rational `n / d` (`d` positive): the value of a Go
floating-point constant, and of the conversion `float64(n)` when `d = 1`. -/
def ofRatio (n : Int) (d : Nat) : F64 :=
  if n = 0 then ⟨0, 0⟩
  else
    let r := roundPos n.natAbs d
    ⟨if n < 0 then -r.m else r.m, r.e⟩

/-- Go `float64(n)` for an integer `n`. -/
def ofInt (n : Int) : F64 := ofRatio n 1

/-- Go `a / b` on `float64`, for a divisor other than zero (the program divides by the
constant 1024 and by a length that was checked to be positive). -/
def div (a b : F64) : F64 :=
  if a.m = 0 ∨ b.m = 0 then ⟨0, 0⟩
  else
    let r := roundPos a.m.natAbs b.m.natAbs
    ⟨if (a.m < 0) = (b.m < 0) then r.m else -r.m, r.e + a.e - b.e⟩

/-- Go `a < b` on `float64`: both mantissas are brought to the smaller exponent. -/
def lt (a b : F64) : Bool :=
  let e := min a.e b.e
  decide (a.m * 2 ^ (a.e - e).toNat < b.m * 2 ^ (b.e - e).toNat)

/-- Go `a >= b` on `float64`. -/
def ge (a b : F64) : Bool := !lt a b

/-- An integer as decimal digits, left-padded with zeros to `width`. -/
def padDigits (width n : Nat) : String :=
  let ds := toString n
  String.mk (List.replicate (width - ds.length) '0') ++ ds

/-- Go `fmt.Sprintf("%.<prec>f", x)`: the exact value rounded to `prec` decimals, ties to
even. -/
def fmtFixed (prec : Nat) (x : F64) : String :=
  let a := x.m.natAbs * 10 ^ prec
  let q :=
    if 0 ≤ x.e then a * 2 ^ x.e.toNat
    else
      let d := 2 ^ (-x.e).toNat
      let q := a / d
      let r := a % d
      if d < 2 * r ∨ (2 * r = d ∧ q % 2 = 1) then q + 1 else q
  let sign := if x.m < 0 then "-" else ""
  let whole := toString (q / 10 ^ prec)
  if prec = 0 then sign ++ whole
  else sign ++ whole ++ "." ++ padDigits prec (q % 10 ^ prec)

end F64

/-! ## The operating system and the external packages -/

/-- What `os.Lstat` reports about a path: the size, the mode bits (`fs.FileMode`, 32 bits)
and, when the platform provides a `syscall.Stat_t`, the owner and group ids. -/
structure Stat where
  size : Int
  mode : Nat
  sys : Option (Nat × Nat)
deriving DecidableEq, Repr

/-- The list of linked libraries and the flags found by the binary analysis. -/
structure BinaryInfo where
  IsExecutable : Bool := false
  LinkedLibraries : List String := []
  IsStripped : Bool := false
  HasSignature : Bool := false
  SignatureInfo : String := ""
deriving DecidableEq, Repr

/-- The three checksums of a file, in hexadecimal. -/
structure HashInfo where
  MD5 : String
  SHA256 : String
  SHA512 : String
deriving DecidableEq, Repr

/-- The state of the machine the program runs on, as far as the program looks at it. -/
structure World where
  /-- Go `filepath.Abs`; `none` when it reports an error. -/
  abs : String → Option String
  /-- Go `os.Lstat`; `none` when it reports an error. -/
  lstat : String → Option Stat
  /-- Go `os.Readlink`; `none` when it reports an error. -/
  readlink : String → Option String
  /-- Go `filepath.Join(filepath.Dir(current), target)` for a relative link target, as a
  function of `current` and `target`. -/
  joinDir : String → String → String
  /-- The bytes of a file that `os.Open` opens; `none` when the file cannot be opened
  or read. -/
  openFile : String → Option Bytes
  /-- The `Type` field of the file that `debug/macho` parses, for a file with a Mach-O
  magic number; `none` when the parse fails. -/
  machoParse : String → Option Nat
  /-- The `Type` field of the file that `debug/elf` parses, for a file with the ELF
  magic number; `none` when the parse fails. -/
  elfParse : String → Option Nat
  /-- Go `unicode.ToLower` on a rune outside ASCII. -/
  unicodeToLower : Char → Char
  /-- Go `runtime.GOARCH`. -/
  goarch : String
  /-- The output of `id -un <uid>`, trimmed; `none` when the command fails. -/
  idUser : Nat → Option String
  /-- The output of `id -gn <gid>`, trimmed; `none` when the command fails. -/
  idGroup : Nat → Option String
  /-- Go `os.Getuid`. -/
  getuid : Nat
  /-- The platform part of `AnalyzeBinary` (`analyzeMachO`, `analyzeELF` or nothing,
  by `runtime.GOOS`), which fills in the record it is given. -/
  analyzePlatform : String → BinaryInfo → BinaryInfo
  /-- Source `CalculateHashes`; `none` when the file cannot be opened or read. -/
  calculateHashes : String → Option HashInfo

/-! ## filetype.go -/

/-- The record `FileTypeInfo`; the default is Go's zero value. -/
structure FileTypeInfo where
  MIMEType : String := ""
  FileFormat : String := ""
  IsText : Bool := false
  IsBinary : Bool := false
  IsScript : Bool := false
  Interpreter : Bytes := []
  Encoding : String := ""
deriving DecidableEq, Repr

/-- The magic-number test at the start of `macho.NewFile`: the first four bytes, read
big-endian or little-endian, are `0xfeedface` or `0xfeedfacf`. -/
def machoMagic (content : Bytes) : Bool :=
  match content with
  | b0 :: b1 :: b2 :: b3 :: _ =>
    (b0 == 0xFE && b1 == 0xED && b2 == 0xFA && (b3 == 0xCE || b3 == 0xCF))
      || ((b0 == 0xCE || b0 == 0xCF) && b1 == 0xFA && b2 == 0xED && b3 == 0xFE)
  | _ => false

/-- The magic-number test at the start of `elf.NewFile`: the file starts with
`0x7f 'E' 'L' 'F'`. -/
def elfMagic (content : Bytes) : Bool :=
  match content with
  | b0 :: b1 :: b2 :: b3 :: _ => b0 == 0x7F && b1 == 0x45 && b2 == 0x4C && b3 == 0x46
  | _ => false

/-- Go `macho.Open`: the file is opened, its magic number is checked, then it is parsed. -/
def machoOpen (w : World) (path : String) : Option Nat :=
  match w.openFile path with
  | none => none
  | some content => if machoMagic content then w.machoParse path else none

/-- Go `elf.Open`: the file is opened, its magic number is checked, then it is parsed. -/
def elfOpen (w : World) (path : String) : Option Nat :=
  match w.openFile path with
  | none => none
  | some content => if elfMagic content then w.elfParse path else none

/-- Source `detectMachO`: whether the file is a Mach-O binary, and the updated record.
The file types are `macho.TypeObj = 1`, `TypeExec = 2`, `TypeDylib = 6`, `TypeBundle = 8`. -/
def detectMachO (w : World) (path : String) (info : FileTypeInfo) : Bool × FileTypeInfo :=
  match machoOpen w path with
  | none => (false, info)
  | some ty =>
    let info := { info with
      IsBinary := true, FileFormat := "Mach-O executable",
      MIMEType := "application/x-mach-binary" }
    let info :=
      if ty = 2 then { info with FileFormat := "Mach-O executable" }
      else if ty = 6 then { info with FileFormat := "Mach-O dynamic library" }
      else if ty = 8 then { info with FileFormat := "Mach-O bundle" }
      else if ty = 1 then { info with FileFormat := "Mach-O object file" }
      else info
    (true, info)

/-- Source `detectELF`: whether the file is an ELF binary, and the updated record.
The file types are `elf.ET_REL = 1`, `ET_EXEC = 2`, `ET_DYN = 3`, `ET_CORE = 4`. -/
def detectELF (w : World) (path : String) (info : FileTypeInfo) : Bool × FileTypeInfo :=
  match elfOpen w path with
  | none => (false, info)
  | some ty =>
    let info := { info with
      IsBinary := true, FileFormat := "ELF executable",
      MIMEType := "application/x-executable" }
    let info :=
      if ty = 2 then { info with FileFormat := "ELF executable" }
      else if ty = 3 then { info with FileFormat := "ELF shared object" }
      else if ty = 1 then { info with FileFormat := "ELF relocatable" }
      else if ty = 4 then { info with FileFormat := "ELF core dump" }
      else info
    (true, info)

/-- Source `detectScript`: whether the header starts with a shebang, and the updated
record. -/
def detectScript (header : Bytes) (info : FileTypeInfo) : Bool × FileTypeInfo :=
  if header.length < 2 ∨ header.getD 0 0 ≠ 35 ∨ header.getD 1 0 ≠ 33 then (false, info)
  else
    let info := { info with IsScript := true, IsText := true }
    match scanFirstLine header with
    | none => (true, info)
    | some shebang =>
      let info := { info with Interpreter := TrimSpace (TrimPrefix shebang (ascii "#!")) }
      if Contains info.Interpreter (ascii "bash") then
        (true, { info with FileFormat := "Bash script", MIMEType := "text/x-shellscript" })
      else if Contains info.Interpreter (ascii "sh") then
        (true, { info with FileFormat := "Shell script", MIMEType := "text/x-shellscript" })
      else if Contains info.Interpreter (ascii "python") then
        (true, { info with FileFormat := "Python script", MIMEType := "text/x-python" })
      else if Contains info.Interpreter (ascii "perl") then
        (true, { info with FileFormat := "Perl script", MIMEType := "text/x-perl" })
      else if Contains info.Interpreter (ascii "ruby") then
        (true, { info with FileFormat := "Ruby script", MIMEType := "text/x-ruby" })
      else if Contains info.Interpreter (ascii "node")
          ∨ Contains info.Interpreter (ascii "nodejs") then
        (true, { info with FileFormat := "Node.js script", MIMEType := "text/javascript" })
      else
        (true, { info with FileFormat := "Script", MIMEType := "text/plain" })

/-- Source `isText`: no null byte, valid UTF-8, and more than 95% printable bytes. -/
def isText (data : Bytes) : Bool :=
  if data.length = 0 then true
  else if data.contains 0 then false
  else if !Valid data then false
  else
    let printable :=
      data.countP (fun b => (32 ≤ b && b < 127) || b == 10 || b == 13 || b == 9)
    F64.lt (F64.ofRatio 95 100) (F64.div (F64.ofInt printable) (F64.ofInt data.length))

/-- Source `detectEncoding`. -/
def detectEncoding (data : Bytes) : String :=
  if Valid data then "UTF-8" else "Unknown"

/-- Go `filepath.Ext`: the suffix of the last path element that starts at its last dot,
or the empty string. -/
def Ext (path : String) : String :=
  let last := path.toList.reverse.takeWhile (fun c => c != '/')
  if last.contains '.' then String.mk ('.' :: (last.takeWhile (fun c => c != '.')).reverse)
  else ""

/-- Go `strings.ToLower`: an ASCII string has its letters `A`..`Z` lowered, any other
string is mapped rune by rune through `unicode.ToLower`, which lowers the ASCII letters
in the same way. -/
def ToLower (unicodeToLower : Char → Char) (s : String) : String :=
  if s.toList.all (fun c => c.toNat < 0x80) then
    if !s.toList.any (fun c => 'A' ≤ c ∧ c ≤ 'Z') then s
    else String.mk (s.toList.map Char.toLower)
  else
    String.mk (s.toList.map (fun c => if c.toNat < 0x80 then c.toLower else unicodeToLower c))

/-- The cases of the `switch` in `detectByExtension`, in source order: the extensions of
a case, its file format and its MIME type. -/
def extensionCases : List (List String × String × String) :=
  [ ([".go"], "Go source code", "text/x-go"),
    ([".c"], "C source code", "text/x-c"),
    ([".cpp", ".cc", ".cxx"], "C++ source code", "text/x-c++"),
    ([".h", ".hpp"], "C/C++ header", "text/x-c"),
    ([".js"], "JavaScript", "text/javascript"),
    ([".json"], "JSON", "application/json"),
    ([".xml"], "XML", "application/xml"),
    ([".html", ".htm"], "HTML", "text/html"),
    ([".css"], "CSS", "text/css"),
    ([".md", ".markdown"], "Markdown", "text/markdown"),
    ([".yaml", ".yml"], "YAML", "text/yaml"),
    ([".toml"], "TOML", "text/toml"),
    ([".zip"], "ZIP archive", "application/zip"),
    ([".tar"], "TAR archive", "application/x-tar"),
    ([".gz"], "GZIP compressed", "application/gzip"),
    ([".pdf"], "PDF document", "application/pdf"),
    ([".jpg", ".jpeg"], "JPEG image", "image/jpeg"),
    ([".png"], "PNG image", "image/png"),
    ([".gif"], "GIF image", "image/gif") ]

/-- Source `detectByExtension`: the first case that lists the lower-cased extension sets
the file format and the MIME type; without such a case the record is left as it is. -/
def detectByExtension (w : World) (path : String) (info : FileTypeInfo) : FileTypeInfo :=
  let ext := ToLower w.unicodeToLower (Ext path)
  match extensionCases.find? (fun c => c.1.contains ext) with
  | some (_, format, mime) => { info with FileFormat := format, MIMEType := mime }
  | none => info

/-- Source `DetectFileType`; `none` stands for the error return (the file cannot be
opened, or the first read yields no byte, as for an empty file). -/
def DetectFileType (w : World) (path : String) : Option FileTypeInfo :=
  let info : FileTypeInfo := {}
  match w.openFile path with
  | none => none
  | some content =>
    let header := content.take 512
    if header.length = 0 then none
    else if (detectMachO w path info).1 then some (detectMachO w path info).2
    else if (detectELF w path info).1 then some (detectELF w path info).2
    else if (detectScript header info).1 then some (detectScript header info).2
    else
      let info :=
        if isText header then
          { info with IsText := true, FileFormat := "Text file", MIMEType := "text/plain",
                      Encoding := detectEncoding header }
        else
          { info with IsBinary := true, FileFormat := "Binary file",
                      MIMEType := "application/octet-stream" }
      some (detectByExtension w path info)

/-- The extensions that `detectByExtension` recognises. -/
def recognisedExtensions : List String := (extensionCases.map (fun c => c.1)).flatten

/-- Following the claim's words: the first line of a file, the bytes before its first
newline. -/
def fileFirstLine (content : Bytes) : Bytes := content.takeWhile (fun b => b != 10)

/-- A machine on which every path opens as a file with the given bytes; the conversion
to lower case leaves the runes outside ASCII alone and the external tools are absent. -/
def singleFileWorld (content : Bytes) : World where
  abs := some
  lstat := fun _ => some ⟨content.length, 0o644, some (1000, 1000)⟩
  readlink := fun _ => none
  joinDir := fun dir target => dir ++ "/" ++ target
  openFile := fun _ => some content
  machoParse := fun _ => none
  elfParse := fun _ => none
  unicodeToLower := id
  goarch := "amd64"
  idUser := fun _ => none
  idGroup := fun _ => none
  getuid := 1000
  analyzePlatform := fun _ info => info
  calculateHashes := fun _ => none

/-- A script whose first line is longer than the 512 bytes that `DetectFileType` reads:
`#!`, 510 spaces, `/bin/bash` and a newline. -/
def longShebang : Bytes := ascii "#!" ++ List.replicate 510 32 ++ ascii "/bin/bash\n"

/-! ## fileinfo.go -/

/-- Go `fs.FileMode.String`: one letter of `dalTLDpSugct?` for each of the mode bits 31
down to 19 that is set, a dash when none is, then the nine permission bits as
`rwxrwxrwx` with a dash for each bit that is not set. -/
def fileModeString (m : Nat) : String :=
  let flags := "dalTLDpSugct?".toList.enum.filterMap
    (fun ic => if m &&& (1 <<< (32 - 1 - ic.1)) ≠ 0 then some ic.2 else none)
  let flags := if flags.isEmpty then ['-'] else flags
  let perms := "rwxrwxrwx".toList.enum.map
    (fun ic => if m &&& (1 <<< (9 - 1 - ic.1)) ≠ 0 then ic.2 else '-')
  String.mk (flags ++ perms)

/-- Go `fs.ModeDir`. -/
def ModeDir : Nat := 1 <<< 31
/-- Go `fs.ModeSymlink`. -/
def ModeSymlink : Nat := 1 <<< 27
/-- Go `fs.ModeSticky`. -/
def ModeSticky : Nat := 1 <<< 20

/-- Go `filepath.IsAbs` on Unix: the path starts with a slash. -/
def IsAbs (path : String) : Bool := path.toList.head? == some '/'

/-- The record `FileInfo`; a `nil` pointer is `none`. -/
structure FileInfo where
  Path : String := ""
  Size : Int := 0
  Permissions : String := ""
  Owner : String := ""
  Group : String := ""
  IsWritableByAll : Bool := false
  RequiresSudo : Bool := false
  Arch : String := ""
  OS : String := ""
  SymlinkChain : List String := []
  FileType : Option FileTypeInfo := none
  BinaryInfo : Option BinaryInfo := none
  HashInfo : Option HashInfo := none
deriving DecidableEq, Repr

/-- The step of `GetFileInfo` that reports an error. -/
inductive Failure where
  /-- The error "failed to resolve path". -/
  | resolvePath
  /-- The error "failed to get file info". -/
  | fileInfo
  /-- The error "failed to resolve symlink chain". -/
  | symlinkChain
  /-- The error "failed to get platform-specific info". -/
  | platformInfo
deriving DecidableEq, Repr

/-- A Go result pair `(value, error)`. -/
inductive Result (α : Type) where
  | ok (value : α)
  | err (e : Failure)
deriving DecidableEq, Repr

/-- The loop of `resolveSymlinkChain`, run for at most `fuel` iterations from `current`
with the links found so far; `none` when the loop has not left within `fuel` iterations,
`some none` for the error return. The format string of a chain entry has, between two
blanks, the three characters U+00E2 U+2020 U+2019 (the bytes `c3 a2 e2 80 a0 e2 80 99`
of the source file), not the arrow U+2192 that `FormatFileInfo` splits on. -/
def resolveSymlinkLoop (w : World) : Nat → String → List String → Option (Option (List String))
  | 0, _, _ => none
  | fuel + 1, current, chain =>
    match w.lstat current with
    | none => some none
    | some info =>
      if info.mode &&& ModeSymlink = 0 then some (some chain)
      else
        match w.readlink current with
        | none => some none
        | some target =>
          let target := if !IsAbs target then w.joinDir current target else target
          resolveSymlinkLoop w fuel target (chain ++ [current ++ " \u00e2\u2020\u2019 " ++ target])

/-- Source `resolveSymlinkChain`, its loop bounded by `fuel`. -/
def resolveSymlinkChain (w : World) (fuel : Nat) (path : String) :
    Option (Option (List String)) :=
  resolveSymlinkLoop w fuel path []

/-- Source `getPlatformSpecificInfo` (Linux): `none` for the error return. -/
def getPlatformSpecificInfo (w : World) (fi : FileInfo) (info : Stat) : Option FileInfo :=
  let fi := { fi with Arch := w.goarch, OS := "Linux" }
  match info.sys with
  | none => none
  | some (uid, gid) =>
    let fi := match w.idUser uid with
      | none => { fi with Owner := "uid:" ++ toString uid }
      | some ownerName => { fi with Owner := ownerName }
    let fi := match w.idGroup gid with
      | none => { fi with Group := "gid:" ++ toString gid }
      | some groupName => { fi with Group := groupName }
    let fi := { fi with IsWritableByAll := info.mode &&& 0o002 ≠ 0 }
    some { fi with RequiresSudo := uid = 0 ∧ w.getuid ≠ 0 }

/-- Source `AnalyzeBinary`; its error result is always `nil`. -/
def AnalyzeBinary (w : World) (path : String) (fileType : FileTypeInfo) : BinaryInfo :=
  let info : BinaryInfo := {}
  if !fileType.IsBinary then info
  else
    let info := { info with
      IsExecutable := Contains (ascii fileType.FileFormat) (ascii "executable") }
    w.analyzePlatform path info

/-- Source `GetFileInfo`, with the value of `CalculateHashesFlag` and the bound on the
symlink loop as arguments; `none` when the symlink loop has not left within `fuel`
iterations. -/
def GetFileInfo (w : World) (calculateHashesFlag : Bool) (fuel : Nat) (path : String) :
    Option (Result FileInfo) :=
  match w.abs path with
  | none => some (.err .resolvePath)
  | some absPath =>
    match w.lstat absPath with
    | none => some (.err .fileInfo)
    | some info =>
      let fi : FileInfo :=
        { Path := absPath, Size := info.size, Permissions := fileModeString info.mode }
      match resolveSymlinkChain w fuel absPath with
      | none => none
      | some none => some (.err .symlinkChain)
      | some (some chain) =>
        let fi := { fi with SymlinkChain := chain }
        match getPlatformSpecificInfo w fi info with
        | none => some (.err .platformInfo)
        | some fi =>
          let fi := match DetectFileType w absPath with
            | some fileType => { fi with FileType := some fileType }
            | none => fi
          let fi := match fi.FileType with
            | some fileType =>
              if fileType.IsBinary then
                { fi with BinaryInfo := some (AnalyzeBinary w absPath fileType) }
              else fi
            | none => fi
          let fi :=
            if calculateHashesFlag then
              match w.calculateHashes absPath with
              | some hashInfo => { fi with HashInfo := some hashInfo }
              | none => fi
            else fi
          some (.ok fi)

/-- Two machines on which the path, symlink and platform steps of `GetFileInfo` see the
same answers; what a file contains and what hashes it has may differ. -/
def SameMetadata (w w' : World) : Prop :=
  w.abs = w'.abs ∧ w.lstat = w'.lstat ∧ w.readlink = w'.readlink ∧ w.joinDir = w'.joinDir
    ∧ w.goarch = w'.goarch ∧ w.idUser = w'.idUser ∧ w.idGroup = w'.idGroup
    ∧ w.getuid = w'.getuid

/-- A record without its three optional fields. -/
def withoutProbes (fi : FileInfo) : FileInfo :=
  { fi with FileType := none, BinaryInfo := none, HashInfo := none }

/-- A machine on which `/loop` is a symbolic link to itself. -/
def loopWorld : World where
  abs := some
  lstat := fun p => if p = "/loop" then some ⟨5, ModeSymlink ||| 0o777, some (0, 0)⟩ else none
  readlink := fun p => if p = "/loop" then some "/loop" else none
  joinDir := fun dir target => dir ++ "/" ++ target
  openFile := fun _ => none
  machoParse := fun _ => none
  elfParse := fun _ => none
  unicodeToLower := id
  goarch := "amd64"
  idUser := fun _ => some "root"
  idGroup := fun _ => some "root"
  getuid := 0
  analyzePlatform := fun _ info => info
  calculateHashes := fun _ => none

/-- A machine with one file `/etc/shadow` that `os.Lstat` sees and `os.Open` refuses. -/
def unreadableWorld : World where
  abs := some
  lstat := fun p => if p = "/etc/shadow" then some ⟨1200, 0o640, some (0, 42)⟩ else none
  readlink := fun _ => none
  joinDir := fun dir target => dir ++ "/" ++ target
  openFile := fun _ => none
  machoParse := fun _ => none
  elfParse := fun _ => none
  unicodeToLower := id
  goarch := "amd64"
  idUser := fun _ => some "root"
  idGroup := fun _ => some "shadow"
  getuid := 1000
  analyzePlatform := fun _ info => info
  calculateHashes := fun _ => none

/-! ## formatter.go: permissions -/

/-- The record `PermissionBreakdown`. -/
structure PermissionBreakdown where
  Owner : String := ""
  Group : String := ""
  Others : String := ""
deriving DecidableEq, Repr

/-- Source `formatPermGroup`, on the three characters of a group. -/
def formatPermGroup (perms : List Char) : String :=
  let parts : List String := []
  let short : List String := []
  let (parts, short) :=
    if perms.getD 0 ' ' = 'r' then (parts ++ ["read"], short ++ ["r"]) else (parts, short)
  let (parts, short) :=
    if perms.getD 1 ' ' = 'w' then (parts ++ ["write"], short ++ ["w"]) else (parts, short)
  let (parts, short) :=
    if perms.getD 2 ' ' = 'x' then (parts ++ ["execute"], short ++ ["x"]) else (parts, short)
  if parts.length = 0 then "--- (no permissions)"
  else String.join short ++ " (" ++ ", ".intercalate parts ++ ")"

/-- Source `parsePermissions`: the groups are the characters 1 to 3, 4 to 6 and 7 to 9 of
the permission string. -/
def parsePermissions (permStr : String) : PermissionBreakdown :=
  let pb : PermissionBreakdown := {}
  if permStr.toList.length < 10 then pb
  else
    let ownerPerms := (permStr.toList.drop 1).take 3
    let groupPerms := (permStr.toList.drop 4).take 3
    let othersPerms := (permStr.toList.drop 7).take 3
    { pb with Owner := formatPermGroup ownerPerms, Group := formatPermGroup groupPerms,
              Others := formatPermGroup othersPerms }

/-- Following the claim's words: the description of the read, write and execute bits that
a mode grants to one class of users; `shift` is 6 for the owner, 3 for the group and 0
for the others. -/
def grantedDescription (mode shift : Nat) : String :=
  let r := mode &&& (0o4 <<< shift) ≠ 0
  let w := mode &&& (0o2 <<< shift) ≠ 0
  let x := mode &&& (0o1 <<< shift) ≠ 0
  let long := (if r then ["read"] else []) ++ (if w then ["write"] else [])
    ++ (if x then ["execute"] else [])
  let short := (if r then "r" else "") ++ (if w then "w" else "") ++ (if x then "x" else "")
  if long.isEmpty then "--- (no permissions)" else short ++ " (" ++ ", ".intercalate long ++ ")"

/-- The mode of a world-writable sticky directory such as `/tmp`. -/
def stickyDirMode : Nat := ModeDir ||| ModeSticky ||| 0o777

/-! ## cmd/root.go: the default mode -/

/-- What `os.Stat` followed by `os.IsNotExist` tells about a path. -/
inductive StatOutcome where
  /-- Go `os.Stat` succeeds. -/
  | found
  /-- Go `os.Stat` fails and `os.IsNotExist` holds of its error. -/
  | notExist
  /-- Go `os.Stat` fails with another error, such as a missing permission or a link
  cycle. -/
  | otherError
deriving DecidableEq, Repr

/-- The package variables of `cmd` that `main` fills in, and `os.Stat`. The file
information is an opaque value to this package; errors are their messages. -/
structure Cmd (Info : Type) where
  stat : String → StatOutcome
  /-- The function that `main` sets to `GetFileInfo`; `none` when the call does not
  return, as on a link cycle. -/
  GetFileInfoFunc : String → Option (Except String Info)
  FormatFileInfoFunc : Info → String
  /-- The resolver of commands; `none` is the `nil` function value. -/
  ResolveCommandFunc : Option (String → Except String String)

/-- What a run writes and does, in order. -/
inductive Output where
  /-- Go `fmt.Print` of the formatted information of a path. -/
  | info (path text : String)
  /-- Go `fmt.Println` of the line of eighty dashes between two files. -/
  | separator
  /-- A line on standard error. -/
  | error (text : String)
  /-- Go `os.Exit`. -/
  | exit (code : Nat)
  /-- A call that does not return: the run does nothing after it. -/
  | hang
deriving DecidableEq, Repr

/-- The first loop of the default mode: the arguments still to handle, the `filePaths`
and the output so far. -/
def gatherLoop {Info : Type} (c : Cmd Info) :
    List String → List String → List Output → List String × List Output
  | [], filePaths, out => (filePaths, out)
  | input :: rest, filePaths, out =>
    if c.stat input = .notExist then
      match c.ResolveCommandFunc with
      | some resolveCommand =>
        match resolveCommand input with
        | .ok resolved => gatherLoop c rest (filePaths ++ [resolved]) out
        | .error resolveErr =>
          gatherLoop c rest filePaths (out ++ [.error ("Error: " ++ resolveErr ++ "\n")])
      | none => gatherLoop c rest (filePaths ++ [input]) out
    else gatherLoop c rest (filePaths ++ [input]) out

/-- The second loop of the default mode, at index `i` of the `total` file paths. -/
def displayLoop {Info : Type} (c : Cmd Info) (total : Nat) :
    Nat → List String → List Output → List Output
  | _, [], out => out
  | i, filePath :: rest, out =>
    match c.GetFileInfoFunc filePath with
    | none => out ++ [.hang]
    | some (.error err) =>
      displayLoop c total (i + 1) rest
        (out ++ [.error ("Error reading " ++ filePath ++ ": " ++ err ++ "\n")])
    | some (.ok info) =>
      let out := out ++ [.info filePath (c.FormatFileInfoFunc info)]
      let out := if i < total - 1 then out ++ [.separator] else out
      displayLoop c total (i + 1) rest out

/-- The default mode of `rootCmd.Run` (no `--diff`, `--ll` or `--lib`): the output of the
run on the arguments `args`. -/
def runDefault {Info : Type} (c : Cmd Info) (args : List String) : List Output :=
  let (filePaths, out) := gatherLoop c args [] []
  if filePaths.length = 0 then
    out ++ [.error "Error: No valid files found\n", .exit 1]
  else displayLoop c filePaths.length 0 filePaths out

/-- The paths whose information a run displays, in order. -/
def displayedPaths (out : List Output) : List String :=
  out.filterMap (fun o => match o with
    | .info path _ => some path
    | _ => none)

/-- Following the claim's words: an argument that exists is kept, one that does not
exist is replaced by what it resolves to through `PATH`, and is dropped when it does not
resolve. -/
def existsOrResolves (exist : String → Bool) (resolve : String → Except String String)
    (input : String) : Option String :=
  if exist input then some input
  else match resolve input with
    | .ok resolved => some resolved
    | .error _ => none

/-- Whether a Go call returned, and without error. -/
def succeeds {ε α : Type} (r : Option (Except ε α)) : Bool :=
  match r with
  | some (.ok _) => true
  | _ => false

/-- Following the claim's words: the reports on standard error for the arguments that
do not exist and do not resolve, in argument order. -/
def unresolvedReports (stat : String → StatOutcome)
    (resolve : String → Except String String) (args : List String) : List Output :=
  args.filterMap (fun input =>
    if stat input = .notExist then
      match resolve input with
      | .ok _ => none
      | .error resolveErr => some (.error ("Error: " ++ resolveErr ++ "\n"))
    else none)

/-- Following the claim's words: what the display step writes for the file path at index
`i` of `total`: its information, and a separator unless it is the last file path; or the
report that it cannot be read. -/
def displayOf {Info : Type} (c : Cmd Info) (total : Nat) (ip : Nat × String) : List Output :=
  match c.GetFileInfoFunc ip.2 with
  | none => [.hang]
  | some (.error err) => [.error ("Error reading " ++ ip.2 ++ ": " ++ err ++ "\n")]
  | some (.ok info) =>
    if ip.1 < total - 1 then [.info ip.2 (c.FormatFileInfoFunc info), .separator]
    else [.info ip.2 (c.FormatFileInfoFunc info)]

/-- A `ResolveCommand` that finds no command. -/
def notInPath (name : String) : Except String String :=
  .error ("command '" ++ name ++ "' not found in PATH")

/-- A `ResolveCommand` that finds `ls` only. -/
def onlyLs (name : String) : Except String String :=
  if name = "ls" then .ok "/usr/bin/ls" else notInPath name

/-- A setting in which `/data/report` exists for `os.Stat` but cannot be inspected. -/
def brokenInfoCmd : Cmd String where
  stat := fun _ => .found
  GetFileInfoFunc := fun p =>
    if p = "/data/report" then some (.error "failed to resolve symlink chain")
    else some (.ok p)
  FormatFileInfoFunc := fun info => "Path        : " ++ info ++ "\n"
  ResolveCommandFunc := some notInPath

/-- A setting with two existing files, a command found through `PATH`, and nothing else. -/
def mixedCmd : Cmd String where
  stat := fun p => if p = "/etc/hosts" ∨ p = "/etc/fstab" then .found else .notExist
  GetFileInfoFunc := fun p => some (.ok p)
  FormatFileInfoFunc := fun info => "Path        : " ++ info ++ "\n"
  ResolveCommandFunc := some onlyLs

/-- A setting in which `/loop` is a link to itself: `os.Stat` fails on it with an error
other than "does not exist", and `GetFileInfo` does not return on it. -/
def cycleCmd : Cmd String where
  stat := fun p => if p = "/loop" then .otherError else .found
  GetFileInfoFunc := fun p => if p = "/loop" then none else some (.ok p)
  FormatFileInfoFunc := fun info => "Path        : " ++ info ++ "\n"
  ResolveCommandFunc := some notInPath

/-! ## binary.go: formatting -/

/-- The line `fmt.Sprintf("  %s %s\n", treeFn(connector), valueFn(text))`. -/
def treeLine (valueFn treeFn : String → String) (connector text : String) : String :=
  "  " ++ treeFn connector ++ " " ++ valueFn text ++ "\n"

/-- Source `FormatBinaryInfo`. -/
def FormatBinaryInfo (info : BinaryInfo) (showFullLinkedLibs : Bool)
    (labelFn valueFn treeFn execFn : String → String) : String :=
  if !info.IsExecutable && info.LinkedLibraries.length = 0 then ""
  else
    let sb := ""
    let sb :=
      if info.IsExecutable then
        let sb := sb ++ labelFn "Binary Type : "
        let sb := sb ++ execFn "Executable"
        let sb := if info.IsStripped then sb ++ valueFn " (stripped)" else sb
        sb ++ "\n"
      else sb
    let sb :=
      if info.HasSignature && info.SignatureInfo != "" then
        sb ++ labelFn "Code Signature: " ++ valueFn info.SignatureInfo ++ "\n"
      else sb
    if info.LinkedLibraries.length > 0 then
      let sb := sb ++ labelFn "Linked Libraries:\n"
      let limit := 10
      let limit :=
        if showFullLinkedLibs || info.LinkedLibraries.length < limit then
          info.LinkedLibraries.length
        else limit
      let sb := (List.range limit).foldl (fun sb i =>
        if i = limit - 1 ∧ info.LinkedLibraries.length ≤ limit then
          sb ++ treeLine valueFn treeFn "╰──" (info.LinkedLibraries.getD i "")
        else
          sb ++ treeLine valueFn treeFn "├──" (info.LinkedLibraries.getD i "")) sb
      if !showFullLinkedLibs && info.LinkedLibraries.length > limit then
        sb ++ treeLine valueFn treeFn "╰──"
          ("... and " ++ toString (info.LinkedLibraries.length - limit)
            ++ " more (use --ll for full list)")
      else sb
    else sb

/-- Source `FormatLinkedLibrariesOnlySection`. -/
def FormatLinkedLibrariesOnlySection (info : BinaryInfo)
    (labelFn valueFn treeFn : String → String) : String :=
  if info.LinkedLibraries.length = 0 then ""
  else
    let sb := labelFn "Linked Libraries:\n"
    info.LinkedLibraries.enum.foldl (fun sb il =>
      if il.1 = info.LinkedLibraries.length - 1 then
        sb ++ treeLine valueFn treeFn "╰──" il.2
      else
        sb ++ treeLine valueFn treeFn "├──" il.2) sb

/-- Following the claim's words: the lines for a list of entries, the last one with the
connector `╰──` and every earlier one with `├──`. -/
def treeBlock (valueFn treeFn : String → String) (entries : List String) : List String :=
  match entries.getLast? with
  | none => []
  | some last =>
    entries.dropLast.map (treeLine valueFn treeFn "├──") ++ [treeLine valueFn treeFn "╰──" last]

/-- Following the claim's words: the entries of the linked-library block, the first ten
libraries and a count of the others unless the full list is requested. -/
def shownLibraries (libs : List String) (showFullLinkedLibs : Bool) : List String :=
  if !showFullLinkedLibs ∧ libs.length > 10 then
    libs.take 10 ++ ["... and " ++ toString (libs.length - 10) ++ " more (use --ll for full list)"]
  else libs

/-- What `FormatBinaryInfo` writes before the linked-library block: the binary type and
the code signature, when there are any. -/
def binaryTypeAndSignature (info : BinaryInfo) (labelFn valueFn execFn : String → String) :
    String :=
  (if info.IsExecutable then
      labelFn "Binary Type : " ++ execFn "Executable"
        ++ (if info.IsStripped then valueFn " (stripped)" else "") ++ "\n"
    else "")
  ++ (if info.HasSignature && info.SignatureInfo != "" then
      labelFn "Code Signature: " ++ valueFn info.SignatureInfo ++ "\n"
    else "")

/-! ## formatter.go: colours, sizes, linked libraries -/

/-- A colour of package `github.com/fatih/color`: the escape sequences written before
and after a coloured text. -/
structure Color where
  format : String
  unformat : String
deriving DecidableEq, Repr

/-- The `Sprint` and `Sprintf` methods of a colour, on the text already formatted: with
`color.NoColor` set the text is left as it is. -/
def Color.Sprint (noColor : Bool) (c : Color) (text : String) : String :=
  if noColor then text else c.format ++ text ++ c.unformat

/-- The escape sequence that starts the attributes `seq` (`ESC [ seq m`). -/
def escape (seq : String) : String := "\x1b[" ++ seq ++ "m"

/-- Source `labelColor`: cyan, bold. -/
def labelColor : Color := ⟨escape "36;1", escape "0"⟩
/-- Source `valueColor`: white. -/
def valueColor : Color := ⟨escape "37", escape "0"⟩
/-- Source `treeColor`: blue. -/
def treeColor : Color := ⟨escape "34", escape "0"⟩
/-- Source `sizeColor`: magenta. -/
def sizeColor : Color := ⟨escape "35", escape "0"⟩

/-- Source `FormatLinkedLibrariesOnly`, under the values of `DisableColors` and
`color.NoColor`. -/
def FormatLinkedLibrariesOnly (disableColors noColor : Bool) (fi : FileInfo) : String :=
  let noColor := if disableColors then true else noColor
  match fi.BinaryInfo with
  | none => "No linked libraries found for " ++ fi.Path ++ "\n"
  | some binaryInfo =>
    if binaryInfo.LinkedLibraries.length = 0 then
      "No linked libraries found for " ++ fi.Path ++ "\n"
    else
      FormatLinkedLibrariesOnlySection binaryInfo (labelColor.Sprint noColor)
        (valueColor.Sprint noColor) (treeColor.Sprint noColor)

/-- The size lines of `FormatFileInfo` (the list `sizeLines` once the bytes line is
appended), under the value of `color.NoColor`. -/
def sizeLines (noColor : Bool) (size : Int) : List String :=
  let sizeGB := F64.div (F64.div (F64.div (F64.ofInt size) (F64.ofInt 1024)) (F64.ofInt 1024))
    (F64.ofInt 1024)
  let sizeMB := F64.div (F64.div (F64.ofInt size) (F64.ofInt 1024)) (F64.ofInt 1024)
  let sizeKB := F64.div (F64.ofInt size) (F64.ofInt 1024)
  let sizeLines : List String := []
  let sizeLines :=
    if F64.ge sizeGB (F64.ofRatio 1 10) then
      sizeLines ++ [sizeColor.Sprint noColor (F64.fmtFixed 2 sizeGB ++ " GB")]
    else sizeLines
  let sizeLines :=
    if F64.ge sizeMB (F64.ofInt 1) then
      sizeLines ++ [sizeColor.Sprint noColor (F64.fmtFixed 0 sizeMB ++ " MB")]
    else sizeLines
  let sizeLines :=
    if F64.ge sizeKB (F64.ofInt 1) && F64.lt sizeMB (F64.ofInt 1000) then
      sizeLines ++ [sizeColor.Sprint noColor (F64.fmtFixed 0 sizeKB ++ " KB")]
    else sizeLines
  sizeLines ++ [sizeColor.Sprint noColor (toString size ++ " bytes")]

/-- The size part of the output of `FormatFileInfo`: the label, the first size line, and
the other size lines as a tree; `none` stands for the run-time panic of `sizeLines[0]` on
an empty list. -/
def formatSize (noColor : Bool) (size : Int) : Option String :=
  let sb := labelColor.Sprint noColor "Size        : "
  match sizeLines noColor size with
  | [] => none
  | first :: rest =>
    let sb := sb ++ first ++ "\n"
    some (rest.enum.foldl (fun sb il =>
      let sb :=
        if il.1 + 1 = (first :: rest).length - 1 then
          sb ++ "              " ++ treeColor.Sprint noColor "╰─" ++ " "
        else
          sb ++ "              " ++ treeColor.Sprint noColor "├─" ++ " "
      sb ++ il.2 ++ "\n") sb)

/-- The GB line of a size, as `FormatFileInfo` writes it. -/
def gbLine (noColor : Bool) (size : Int) : String :=
  sizeColor.Sprint noColor (F64.fmtFixed 2
    (F64.div (F64.div (F64.div (F64.ofInt size) (F64.ofInt 1024)) (F64.ofInt 1024))
      (F64.ofInt 1024)) ++ " GB")

/-- The MB line of a size. -/
def mbLine (noColor : Bool) (size : Int) : String :=
  sizeColor.Sprint noColor (F64.fmtFixed 0
    (F64.div (F64.div (F64.ofInt size) (F64.ofInt 1024)) (F64.ofInt 1024)) ++ " MB")

/-- The KB line of a size. -/
def kbLine (noColor : Bool) (size : Int) : String :=
  sizeColor.Sprint noColor (F64.fmtFixed 0 (F64.div (F64.ofInt size) (F64.ofInt 1024)) ++ " KB")

/-- The bytes line of a size: the exact integer. -/
def bytesLine (noColor : Bool) (size : Int) : String :=
  sizeColor.Sprint noColor (toString size ++ " bytes")

/-! ## Settings for the script branches and the symlink chain -/

/-- A Python script whose interpreter is installed under a home directory with `sh` in
its name. -/
def joshPython : Bytes := ascii "#!/home/josh/bin/python3\nprint(1)\n"

/-- Following the claim's words: from the path `p` the links lead to the path `q`, and
`chain` lists the links followed, each as source, separator and target, the separator
being the three characters U+00E2 U+2020 U+2019 between two blanks. A link is a path that
`os.Lstat` reports as a symbolic link and `os.Readlink` reads; a relative target is
taken from the directory of the link. -/
inductive Follows (w : World) : String → String → List String → Prop where
  | here (p : String) : Follows w p p []
  | link (p q target : String) (info : Stat) (rest : List String)
      (hlstat : w.lstat p = some info) (hmode : ¬ (info.mode &&& ModeSymlink = 0))
      (hread : w.readlink p = some target)
      (hrest : Follows w (if !IsAbs target then w.joinDir p target else target) q rest) :
      Follows w p q
        ((p ++ " \u00e2\u2020\u2019 " ++ (if !IsAbs target then w.joinDir p target else target)) :: rest)

/-- A machine with a regular file `/srv/app.conf`, a link `/etc/app.conf` to it, and a
link `/etc/old.conf` to the missing `/srv/old.conf`. -/
def linksWorld : World where
  abs := some
  lstat := fun p =>
    if p = "/srv/app.conf" then some ⟨120, 0o644, some (0, 0)⟩
    else if p = "/etc/app.conf" then some ⟨13, ModeSymlink ||| 0o777, some (0, 0)⟩
    else if p = "/etc/old.conf" then some ⟨13, ModeSymlink ||| 0o777, some (0, 0)⟩
    else none
  readlink := fun p =>
    if p = "/etc/app.conf" then some "/srv/app.conf"
    else if p = "/etc/old.conf" then some "/srv/old.conf"
    else none
  joinDir := fun dir target => dir ++ "/" ++ target
  openFile := fun _ => none
  machoParse := fun _ => none
  elfParse := fun _ => none
  unicodeToLower := id
  goarch := "amd64"
  idUser := fun _ => some "root"
  idGroup := fun _ => some "root"
  getuid := 0
  analyzePlatform := fun _ info => info
  calculateHashes := fun _ => none

/-! ## Settings and claim-side texts for the optional fields and the size block -/

/-- A machine with one empty regular file `/tmp/empty`: `DetectFileType` fails on it,
its first read yielding no byte, and `CalculateHashes` returns the checksums of the
empty input. -/
def emptyFileWorld : World where
  abs := some
  lstat := fun p => if p = "/tmp/empty" then some ⟨0, 0o644, some (1000, 1000)⟩ else none
  readlink := fun _ => none
  joinDir := fun dir target => dir ++ "/" ++ target
  openFile := fun p => if p = "/tmp/empty" then some [] else none
  machoParse := fun _ => none
  elfParse := fun _ => none
  unicodeToLower := id
  goarch := "amd64"
  idUser := fun _ => some "dev"
  idGroup := fun _ => some "dev"
  getuid := 1000
  analyzePlatform := fun _ info => info
  calculateHashes := fun p =>
    if p = "/tmp/empty" then
      some ⟨"d41d8cd98f00b204e9800998ecf8427e",
        "e3b0c44298fc1c149afbf4c8996fb92427ae41e4649b934ca495991b7852b855",
        "cf83e1357eefb8bdf1542850d66d8007d620e4050b5715dc83f4a921d36ce9ce"
          ++ "47d0d13c5d85f2b0ff8318d2877eec2f63b931bd47417a81a538327af927da3e"⟩
    else none

/-- Following the claim's words: the size lines after the first one as they are written,
each on a line of its own behind fourteen blanks and a connector, `╰─` for the last of
them and `├─` for the others. -/
def sizeTreeBlock (noColor : Bool) (rest : List String) : List String :=
  match rest.getLast? with
  | none => []
  | some last =>
    rest.dropLast.map
        (fun line => "              " ++ treeColor.Sprint noColor "├─" ++ " " ++ line ++ "\n")
      ++ ["              " ++ treeColor.Sprint noColor "╰─" ++ " " ++ last ++ "\n"]

/-! # Theorems -/

/-! ## Lemmas on the byte-string helpers -/

theorem contains_iff_occurs (s sub : Bytes) : Contains s sub = true ↔ sub <:+: s := by
  induction s with
  | nil =>
    simp [Contains, HasPrefix, List.isPrefixOf_iff_prefix]
  | cons b s ih =>
    simp only [Contains, Bool.or_eq_true, ih, HasPrefix, List.isPrefixOf_iff_prefix]
    exact List.infix_cons_iff.symm

theorem infix_of_infix_cons {sub s : Bytes} {b : Nat} (hb : b ∉ sub) (hne : sub ≠ [])
    (h : sub <:+: b :: s) : sub <:+: s := by
  rcases List.infix_cons_iff.mp h with hp | hi
  · exfalso
    cases sub with
    | nil => exact hne rfl
    | cons x sub =>
      have hx : x = b := by
        obtain ⟨t, ht⟩ := hp
        simp only [List.cons_append, List.cons.injEq] at ht
        exact ht.1
      exact hb (by simp [hx])
  · exact hi

theorem infix_of_infix_append_left {sub : Bytes} (p s : Bytes) (hp : ∀ b ∈ p, b ∉ sub)
    (hne : sub ≠ []) (h : sub <:+: p ++ s) : sub <:+: s := by
  induction p with
  | nil => simpa using h
  | cons b p ih =>
    apply ih (fun c hc => hp c (List.mem_cons_of_mem _ hc))
    exact infix_of_infix_cons (hp b (List.mem_cons_self _ _)) hne h

theorem infix_of_infix_append_right {sub : Bytes} (s q : Bytes) (hq : ∀ b ∈ q, b ∉ sub)
    (hne : sub ≠ []) (h : sub <:+: s ++ q) : sub <:+: s := by
  have h1 : sub.reverse <:+: q.reverse ++ s.reverse := by
    rw [← List.reverse_append]; exact List.reverse_infix.mpr h
  have h2 := @infix_of_infix_append_left sub.reverse q.reverse s.reverse
    (fun b hb hb2 => hq b (List.mem_reverse.mp hb) (List.mem_reverse.mp hb2))
    (by simpa using hne) h1
  exact List.reverse_infix.mp h2

theorem leadInfo_lo {b sz lo hi : Nat} (h : leadInfo b = some (sz, lo, hi)) :
    0x80 ≤ lo ∧ 2 ≤ sz ∧ sz ≤ 4 := by
  unfold leadInfo at h
  split_ifs at h <;> simp at h <;> omega

theorem isSpace_ascii {r : Nat} (h : IsSpace r = true) (hr : r < 0x80) : asciiSpace r = true := by
  unfold IsSpace at h
  unfold asciiSpace
  have h1 : r ≤ 0xFF := by omega
  simp only [h1, if_true, Bool.or_eq_true, beq_iff_eq] at h
  simp only [Bool.or_eq_true, beq_iff_eq]
  omega

theorem isSpace_runeError : IsSpace RuneError = false := by decide

/-- The bytes of a white-space rune at the front of `s` are all removable. -/
theorem decodeRune_spaceish (s : Bytes) (h : IsSpace (DecodeRune s).1 = true) :
    ∀ b ∈ s.take (DecodeRune s).2, Spaceish b := by
  have hE := isSpace_runeError
  match s with
  | [] => simp [DecodeRune]
  | s0 :: rest =>
    unfold DecodeRune at h ⊢
    by_cases h0 : s0 < 0x80
    · simp only [h0, if_true] at h ⊢
      intro b hb
      simp at hb
      subst hb
      exact Or.inl (isSpace_ascii h h0)
    · simp only [h0, if_false] at h ⊢
      cases hl : leadInfo s0 with
      | none => simp [hl, hE] at h
      | some t =>
        obtain ⟨sz, lo, hi⟩ := t
        have hlo := leadInfo_lo hl
        simp only [hl] at h ⊢
        split_ifs at h ⊢ <;> try (simp [hE] at h)
        all_goals (
          first
          | (match rest, h with
              | [], h => simp [hE] at h
              | s1 :: r1, h =>
                simp only at h ⊢
                split_ifs at h ⊢ <;> try (simp [hE] at h)
                all_goals (
                  first
                  | (intro b hb
                     simp at hb
                     rcases hb with hb | hb <;> subst hb <;> right <;> omega)
                  | (match r1, h with
                    | [], h => simp [hE] at h
                    | s2 :: r2, h =>
                      simp only at h ⊢
                      split_ifs at h ⊢ <;> try (simp [hE] at h)
                      all_goals (
                        first
                        | (intro b hb
                           simp at hb
                           rcases hb with hb | hb | hb <;> subst hb <;> right <;> omega)
                        | (match r2, h with
                          | [], h => simp [hE] at h
                          | s3 :: r3, h =>
                            simp only at h ⊢
                            split_ifs at h ⊢ <;> try (simp [hE] at h)
                            all_goals (
                              intro b hb
                              simp at hb
                              rcases hb with hb | hb | hb | hb <;> subst hb <;> right <;> omega))))))
          )

/-- The bytes of a white-space rune at the end of `s` are all removable, and they are
bytes of `s`. -/
theorem decodeLastRune_spaceish (s : Bytes) (h : IsSpace (DecodeLastRune s).1 = true) :
    (DecodeLastRune s).2 ≤ s.length ∧
      ∀ b ∈ s.drop (s.length - (DecodeLastRune s).2), Spaceish b := by
  have hE := isSpace_runeError
  unfold DecodeLastRune at h ⊢
  simp only [List.getD_eq_getElem?_getD] at h ⊢
  by_cases hlen : (s.length : Int) = 0
  · simp only [hlen, if_true] at h
    simp [hE] at h
  · simp only [hlen, if_false] at h ⊢
    have hpos : 0 < s.length := by
      rcases Nat.eq_zero_or_pos s.length with h0 | h0
      · exact absurd (by simp [h0]) hlen
      · exact h0
    by_cases hr : s[s.length - 1]?.getD 0 < 0x80
    · simp only [hr, if_true] at h ⊢
      refine ⟨hpos, ?_⟩
      intro b hb
      have hd : s.drop (s.length - 1) = [s[s.length - 1]?.getD 0] := by
        have hlt : s.length - 1 < s.length := by omega
        rw [List.drop_eq_getElem_cons hlt]
        have : s.length - 1 + 1 = s.length := by omega
        simp [this, List.getElem?_eq_getElem hlt]
      rw [hd] at hb
      simp at hb
      subst hb
      exact Or.inl (isSpace_ascii h hr)
    · simp only [hr, if_false] at h ⊢
      generalize hst : (if lastRuneStart s (if (s.length : Int) - 4 < 0 then 0 else (s.length : Int) - 4) 4
          ((s.length : Int) - 2) < 0 then (0 : Int)
        else lastRuneStart s (if (s.length : Int) - 4 < 0 then 0 else (s.length : Int) - 4) 4
          ((s.length : Int) - 2)) = start at h ⊢
      have hst0 : 0 ≤ start := by
        rw [← hst]; split_ifs <;> omega
      by_cases hne : start + ((DecodeRune (s.drop start.toNat)).2 : Int) ≠ (s.length : Int)
      · rw [if_pos hne] at h
        simp [hE] at h
      · rw [if_neg hne] at h ⊢
        have heq : start + ((DecodeRune (s.drop start.toNat)).2 : Int) = (s.length : Int) := by
          simpa using hne
        have hnat : start.toNat + (DecodeRune (s.drop start.toNat)).2 = s.length := by
          have : (start.toNat : Int) = start := Int.toNat_of_nonneg hst0
          omega
        refine ⟨by omega, ?_⟩
        have hsub : s.length - (DecodeRune (s.drop start.toNat)).2 = start.toNat := by omega
        rw [hsub]
        have hall := decodeRune_spaceish (s.drop start.toNat) h
        have htake : (s.drop start.toNat).take (DecodeRune (s.drop start.toNat)).2
            = s.drop start.toNat := by
          apply List.take_of_length_le
          simp only [List.length_drop]
          omega
        rw [htake] at hall
        exact hall

theorem trimLeftSpace_decomp (fuel : Nat) (s : Bytes) :
    ∃ p, s = p ++ trimLeftSpace fuel s ∧ ∀ b ∈ p, Spaceish b := by
  induction fuel generalizing s with
  | zero => exact ⟨[], by simp [trimLeftSpace]⟩
  | succ fuel ih =>
    unfold trimLeftSpace
    simp only
    by_cases hz : (DecodeRune s).2 = 0
    · exact ⟨[], by simp [hz]⟩
    · by_cases hsp : IsSpace (DecodeRune s).1 = true
      · simp only [hz, if_false, hsp, if_true]
        obtain ⟨p, hp, hall⟩ := ih (s.drop (DecodeRune s).2)
        refine ⟨s.take (DecodeRune s).2 ++ p, ?_, ?_⟩
        · rw [List.append_assoc, ← hp, List.take_append_drop]
        · intro b hb
          rcases List.mem_append.mp hb with hb | hb
          · exact decodeRune_spaceish s hsp b hb
          · exact hall b hb
      · exact ⟨[], by simp [hz, hsp]⟩

theorem trimRightSpace_decomp (fuel : Nat) (s : Bytes) :
    ∃ q, s = trimRightSpace fuel s ++ q ∧ ∀ b ∈ q, Spaceish b := by
  induction fuel generalizing s with
  | zero => exact ⟨[], by simp [trimRightSpace]⟩
  | succ fuel ih =>
    unfold trimRightSpace
    simp only
    by_cases hz : (DecodeLastRune s).2 = 0
    · exact ⟨[], by simp [hz]⟩
    · by_cases hsp : IsSpace (DecodeLastRune s).1 = true
      · simp only [hz, if_false, hsp, if_true]
        obtain ⟨q, hq, hall⟩ := ih (s.take (s.length - (DecodeLastRune s).2))
        refine ⟨q ++ s.drop (s.length - (DecodeLastRune s).2), ?_, ?_⟩
        · rw [← List.append_assoc, ← hq, List.take_append_drop]
        · intro b hb
          rcases List.mem_append.mp hb with hb | hb
          · exact hall b hb
          · exact (decodeLastRune_spaceish s hsp).2 b hb
      · exact ⟨[], by simp [hz, hsp]⟩

theorem trimSpaceStop_decomp (whole : Bytes) (stop : Nat) (hstop : stop ≤ whole.length) :
    ∃ q, whole.take stop = trimSpaceStop whole stop ++ q ∧ ∀ b ∈ q, Spaceish b := by
  induction stop with
  | zero => exact ⟨[], by simp [trimSpaceStop]⟩
  | succ stop ih =>
    unfold trimSpaceStop
    simp only [List.getD_eq_getElem?_getD]
    by_cases hc : whole[stop]?.getD 0 ≥ 0x80
    · simp only [hc, if_true]
      exact trimRightSpace_decomp _ _
    · by_cases hsp : asciiSpace (whole[stop]?.getD 0) = true
      · simp only [hc, if_false, hsp, if_true]
        obtain ⟨q, hq, hall⟩ := ih (by omega)
        have hlt : stop < whole.length := by omega
        refine ⟨q ++ [whole[stop]?.getD 0], ?_, ?_⟩
        · rw [← List.append_assoc, ← hq, List.take_succ]
          simp [List.getElem?_eq_getElem hlt]
        · intro b hb
          rcases List.mem_append.mp hb with hb | hb
          · exact hall b hb
          · simp at hb
            subst hb
            exact Or.inl hsp
      · have hc2 : ¬ (128 ≤ whole[stop]?.getD 0) := hc
        exact ⟨[], by simp [hc2, hsp]⟩

/-- What `strings.TrimSpace` removes, in front and behind, are removable bytes only. -/
theorem trimSpace_decomp (s : Bytes) :
    ∃ p q, s = p ++ TrimSpace s ++ q ∧ (∀ b ∈ p, Spaceish b) ∧ (∀ b ∈ q, Spaceish b) := by
  induction s with
  | nil => exact ⟨[], [], by simp [TrimSpace]⟩
  | cons c s ih =>
    unfold TrimSpace
    by_cases hc : c ≥ 0x80
    · simp only [hc, if_true]
      obtain ⟨p, hp, hpall⟩ := trimLeftSpace_decomp (c :: s).length (c :: s)
      obtain ⟨q, hq, hqall⟩ := trimRightSpace_decomp
        (trimLeftSpace (c :: s).length (c :: s)).length (trimLeftSpace (c :: s).length (c :: s))
      refine ⟨p, q, ?_, hpall, hqall⟩
      rw [List.append_assoc, ← hq, ← hp]
    · by_cases hsp : asciiSpace c = true
      · simp only [hc, if_false, hsp, if_true]
        obtain ⟨p, q, hpq, hpall, hqall⟩ := ih
        refine ⟨c :: p, q, ?_, ?_, hqall⟩
        · simp only [List.cons_append, List.cons.injEq, true_and]
          exact hpq
        · intro b hb
          rcases List.mem_cons.mp hb with hb | hb
          · subst hb; exact Or.inl hsp
          · exact hpall b hb
      · simp only [hc, if_false, hsp]
        obtain ⟨q, hq, hqall⟩ := trimSpaceStop_decomp (c :: s) (c :: s).length le_rfl
        refine ⟨[], q, ?_, by simp, hqall⟩
        rw [List.take_length] at hq
        simpa using hq

/-- A word of ASCII letters that occurs in `s` occurs in `strings.TrimSpace s`. -/
theorem contains_trimSpace {s sub : Bytes} (hsub : ∀ b ∈ sub, ¬ Spaceish b) (hne : sub ≠ [])
    (h : Contains s sub = true) : Contains (TrimSpace s) sub = true := by
  rw [contains_iff_occurs] at h ⊢
  obtain ⟨p, q, hpq, hp, hq⟩ := trimSpace_decomp s
  rw [hpq] at h
  have h1 := infix_of_infix_append_right (p ++ TrimSpace s) q
    (fun b hb hb2 => hsub b hb2 (hq b hb)) hne h
  exact infix_of_infix_append_left p (TrimSpace s)
    (fun b hb hb2 => hsub b hb2 (hp b hb)) hne h1

/-- A word without `#` and `!` that occurs in `s` occurs in `s` without its `#!`. -/
theorem contains_trimPrefix {s sub : Bytes} (h35 : 35 ∉ sub) (h33 : 33 ∉ sub) (hne : sub ≠ [])
    (h : Contains s sub = true) : Contains (TrimPrefix s (ascii "#!")) sub = true := by
  unfold TrimPrefix
  by_cases hp : HasPrefix s (ascii "#!") = true
  · simp only [hp, if_true]
    rw [contains_iff_occurs] at h ⊢
    unfold HasPrefix at hp
    rw [List.isPrefixOf_iff_prefix] at hp
    obtain ⟨t, ht⟩ := hp
    have hasc : ascii "#!" = [35, 33] := by decide
    rw [hasc] at ht ⊢
    subst ht
    simp only [List.length_cons, List.length_nil, List.cons_append, List.nil_append,
      List.drop_succ_cons, List.drop_zero]
    simp only [List.cons_append, List.nil_append] at h
    exact infix_of_infix_cons h33 hne (infix_of_infix_cons h35 hne h)
  · simp only [hp]
    exact h

/-! ## filetype.go: classification -/

theorem shebang_content {content : Bytes}
    (h : HasPrefix (content.take 512) (ascii "#!") = true) :
    ∃ t, content = 35 :: 33 :: t := by
  have hasc : ascii "#!" = [35, 33] := by decide
  rw [hasc] at h
  match content, h with
  | [], h => simp [HasPrefix] at h
  | [a], h => simp [HasPrefix, List.isPrefixOf] at h
  | a :: b :: t, h =>
    simp [HasPrefix, List.isPrefixOf] at h
    exact ⟨t, by rw [h.1, h.2]⟩

theorem machoMagic_shebang (t : Bytes) : machoMagic (35 :: 33 :: t) = false := by
  match t with
  | [] => rfl
  | [_] => rfl
  | _ :: _ :: _ => rfl

theorem elfMagic_shebang (t : Bytes) : elfMagic (35 :: 33 :: t) = false := by
  match t with
  | [] => rfl
  | [_] => rfl
  | _ :: _ :: _ => rfl

theorem detectScript_fst (header : Bytes) (info : FileTypeInfo) :
    (detectScript header info).1 = HasPrefix header (ascii "#!") := by
  have hasc : ascii "#!" = [35, 33] := by decide
  rw [hasc]
  unfold detectScript
  match header with
  | [] => simp [HasPrefix, List.isPrefixOf]
  | [a] => simp [HasPrefix, List.isPrefixOf]
  | a :: b :: t =>
    by_cases ha : a = 35
    · by_cases hb : b = 33
      · subst ha; subst hb
        simp only [List.length_cons, List.getD_cons_zero, List.getD_cons_succ, ne_eq,
          not_true_eq_false, or_false, HasPrefix, List.isPrefixOf, beq_self_eq_true, Bool.and_self]
        have : ¬ (t.length + 1 + 1 < 2) := by omega
        simp only [this, if_false]
        split
        · rfl
        · split_ifs <;> rfl
      · have hb2 : ¬ 33 = b := fun h => hb h.symm
        simp [HasPrefix, List.isPrefixOf, ha, hb, hb2]
    · have ha2 : ¬ 35 = a := fun h => ha h.symm
      simp [HasPrefix, List.isPrefixOf, ha, ha2]

theorem detectMachO_of_none {w : World} {path : String} (info : FileTypeInfo)
    (h : machoOpen w path = none) : (detectMachO w path info).1 = false := by
  simp [detectMachO, h]

theorem detectELF_of_none {w : World} {path : String} (info : FileTypeInfo)
    (h : elfOpen w path = none) : (detectELF w path info).1 = false := by
  simp [detectELF, h]

theorem detectByExtension_unrecognised (w : World) (path : String) (info : FileTypeInfo)
    (h : ToLower w.unicodeToLower (Ext path) ∉ recognisedExtensions) :
    detectByExtension w path info = info := by
  unfold detectByExtension
  have hfind : extensionCases.find? (fun c => c.1.contains (ToLower w.unicodeToLower (Ext path)))
      = none := by
    rw [List.find?_eq_none]
    intro c hc hcontains
    apply h
    unfold recognisedExtensions
    rw [List.mem_flatten]
    exact ⟨c.1, List.mem_map.mpr ⟨c, hc, rfl⟩, by simpa using hcontains⟩
  simp only [hfind]

/-- A header that begins with `#!` and whose first scanned line contains `bash` is
classified as a Bash script. -/
theorem detectFileType_of_bash_line (w : World) (path : String) (content line : Bytes)
    (hopen : w.openFile path = some content)
    (hshebang : HasPrefix (content.take 512) (ascii "#!") = true)
    (hline : scanFirstLine (content.take 512) = some line)
    (hbash : Contains line (ascii "bash") = true) :
    DetectFileType w path = some
      { MIMEType := "text/x-shellscript", FileFormat := "Bash script", IsText := true,
        IsBinary := false, IsScript := true,
        Interpreter := TrimSpace (TrimPrefix line (ascii "#!")), Encoding := "" } := by
  obtain ⟨t, ht⟩ := shebang_content hshebang
  have hmacho : machoOpen w path = none := by
    simp [machoOpen, hopen, ht, machoMagic_shebang]
  have helf : elfOpen w path = none := by
    simp [elfOpen, hopen, ht, elfMagic_shebang]
  have hlen : (content.take 512).length ≠ 0 := by
    rw [ht]; simp
  have hword : ∀ b ∈ ascii "bash", ¬ Spaceish b := by
    unfold Spaceish; decide
  have hinterp : Contains (TrimSpace (TrimPrefix line (ascii "#!"))) (ascii "bash") = true :=
    contains_trimSpace hword (by decide)
      (contains_trimPrefix (by decide) (by decide) (by decide) hbash)
  have hs1 : (detectScript (content.take 512) {}).1 = true := by
    rw [detectScript_fst]; exact hshebang
  have hs2 : (detectScript (content.take 512) {}).2 =
      { MIMEType := "text/x-shellscript", FileFormat := "Bash script", IsText := true,
        IsBinary := false, IsScript := true,
        Interpreter := TrimSpace (TrimPrefix line (ascii "#!")), Encoding := "" } := by
    have hcond : ¬ ((content.take 512).length < 2 ∨ (content.take 512).getD 0 0 ≠ 35
        ∨ (content.take 512).getD 1 0 ≠ 33) := by
      rw [ht]; simp
    unfold detectScript
    rw [if_neg hcond]
    simp only [hline, hinterp, if_true]
  unfold DetectFileType
  simp only [hopen, hlen, if_false, detectMachO_of_none _ hmacho, detectELF_of_none _ helf,
    hs1, if_true, hs2, Bool.false_eq_true]

/-- In a file that begins with `#!/bin/bash` the header begins with `#!` and the first
scanned line contains `bash`. -/
theorem bin_bash_header {content : Bytes}
    (h : HasPrefix content (ascii "#!/bin/bash") = true) :
    HasPrefix (content.take 512) (ascii "#!") = true
      ∧ ∃ line, scanFirstLine (content.take 512) = some line
          ∧ Contains line (ascii "bash") = true := by
  unfold HasPrefix at h
  rw [List.isPrefixOf_iff_prefix] at h
  obtain ⟨r, hr⟩ := h
  have hP : ascii "#!/bin/bash" = [35, 33, 47, 98, 105, 110, 47, 98, 97, 115, 104] := by decide
  rw [hP] at hr
  subst hr
  have htake : ([35, 33, 47, 98, 105, 110, 47, 98, 97, 115, 104] ++ r).take 512
      = [35, 33, 47, 98, 105, 110, 47, 98, 97, 115, 104] ++ r.take 501 := by
    rw [List.take_append_eq_append_take]
    simp
  rw [htake]
  have hasc : ascii "#!" = [35, 33] := by decide
  refine ⟨by rw [hasc]; rfl, ?_⟩
  have hne : ([35, 33, 47, 98, 105, 110, 47, 98, 97, 115, 104] ++ r.take 501).isEmpty = false := by
    simp
  have hwhile : ([35, 33, 47, 98, 105, 110, 47, 98, 97, 115, 104] ++ r.take 501).takeWhile
        (fun b => b != 10)
      = [35, 33, 47, 98, 105, 110, 47, 98, 97, 115, 104]
        ++ (r.take 501).takeWhile (fun b => b != 10) := by
    apply List.takeWhile_append_of_pos
    decide
  refine ⟨dropCR ([35, 33, 47, 98, 105, 110, 47, 98, 97, 115, 104]
      ++ (r.take 501).takeWhile (fun b => b != 10)), ?_, ?_⟩
  · simp only [scanFirstLine, hne, Bool.false_eq_true, if_false, hwhile]
  rw [contains_iff_occurs]
  have hin : ascii "bash" <:+: [35, 33, 47, 98, 105, 110, 47, 98, 97, 115, 104] := by
    rw [← contains_iff_occurs]; decide
  generalize (r.take 501).takeWhile (fun b => b != 10) = y
  unfold dropCR
  split_ifs with hcr
  · rcases List.eq_nil_or_concat y with hy | ⟨y0, c, hy⟩
    · subst hy
      simp at hcr
    · have hyne : y ≠ [] := by rw [hy]; simp
      rw [List.dropLast_append_of_ne_nil _ hyne]
      exact hin.trans (List.prefix_append _ _).isInfix
  · exact hin.trans (List.prefix_append _ _).isInfix

/-- The sentence of the specification: a file that can be opened and that begins with
`#!/bin/bash` is classified as a Bash script. -/
theorem detectFileType_bin_bash (w : World) (path : String) (content : Bytes)
    (hopen : w.openFile path = some content)
    (hstart : HasPrefix content (ascii "#!/bin/bash") = true) :
    ∃ info, DetectFileType w path = some info
      ∧ info.FileFormat = "Bash script" ∧ info.MIMEType = "text/x-shellscript"
      ∧ info.IsScript = true ∧ info.IsText = true ∧ info.IsBinary = false := by
  obtain ⟨hshebang, line, hline, hbash⟩ := bin_bash_header hstart
  exact ⟨_, detectFileType_of_bash_line w path content line hopen hshebang hline hbash,
    rfl, rfl, rfl, rfl, rfl⟩

/-- C1 (as amended): a file that can be opened, whose first 512 bytes begin with `#!` and
whose first line within those 512 bytes (as the line scanner returns it) contains `bash`,
is classified as a Bash script: format `Bash script`, MIME type `text/x-shellscript`,
script and text flags set, binary flag unset, and the interpreter is that first line
without the `#!` prefix and without surrounding white space. -/
theorem detectFileType_bash_script (w : World) (path : String) (content line : Bytes)
    (hopen : w.openFile path = some content)
    (hshebang : HasPrefix (content.take 512) (ascii "#!") = true)
    (hline : scanFirstLine (content.take 512) = some line)
    (hbash : Contains line (ascii "bash") = true) :
    DetectFileType w path = some
      { MIMEType := "text/x-shellscript", FileFormat := "Bash script", IsText := true,
        IsBinary := false, IsScript := true,
        Interpreter := TrimSpace (TrimPrefix line (ascii "#!")), Encoding := "" } :=
  detectFileType_of_bash_line w path content line hopen hshebang hline hbash

theorem detectFileType_bash_script_witness :
    DetectFileType (singleFileWorld (ascii "#!/bin/bash -e\r\necho hi\n")) "/usr/local/bin/hi"
      = some
      { MIMEType := "text/x-shellscript", FileFormat := "Bash script", IsText := true,
        IsBinary := false, IsScript := true,
        Interpreter := TrimSpace (TrimPrefix (ascii "#!/bin/bash -e") (ascii "#!")),
        Encoding := "" } :=
  detectFileType_bash_script (singleFileWorld (ascii "#!/bin/bash -e\r\necho hi\n"))
    "/usr/local/bin/hi" (ascii "#!/bin/bash -e\r\necho hi\n") (ascii "#!/bin/bash -e")
    rfl (by decide) (by decide) (by decide)

set_option maxRecDepth 100000 in
/-- C1 (as stated) fails on a long first line: the file `longShebang` begins with `#!` and
its first line contains `bash`, but `bash` lies beyond the 512 bytes that are read, and
the file is classified as a generic `Script` with an empty interpreter. -/
theorem detectFileType_bash_counterexample :
    HasPrefix longShebang (ascii "#!") = true
      ∧ Contains (fileFirstLine longShebang) (ascii "bash") = true
      ∧ DetectFileType (singleFileWorld longShebang) "/usr/local/bin/hi" = some
        { MIMEType := "text/plain", FileFormat := "Script", IsText := true,
          IsBinary := false, IsScript := true, Interpreter := [], Encoding := "" } := by
  decide

/-- C2: a file that opens as neither Mach-O nor ELF, whose header does not begin with
`#!` and is not text by `isText`, and whose lower-cased extension is not a recognised
one, is reported as a binary file of type `application/octet-stream`. -/
theorem detectFileType_default_binary (w : World) (path : String) (content : Bytes)
    (hopen : w.openFile path = some content)
    (hmacho : machoOpen w path = none) (helf : elfOpen w path = none)
    (hscript : HasPrefix (content.take 512) (ascii "#!") = false)
    (htext : isText (content.take 512) = false)
    (hext : ToLower w.unicodeToLower (Ext path) ∉ recognisedExtensions) :
    DetectFileType w path = some
      { MIMEType := "application/octet-stream", FileFormat := "Binary file", IsText := false,
        IsBinary := true, IsScript := false, Interpreter := [], Encoding := "" } := by
  have hlen : (content.take 512).length ≠ 0 := by
    intro h0
    have hnil : content.take 512 = [] := List.length_eq_zero.mp h0
    rw [hnil] at htext
    simp [isText] at htext
  have hs1 : (detectScript (content.take 512) {}).1 = false := by
    rw [detectScript_fst]; exact hscript
  unfold DetectFileType
  simp only [hopen, hlen, if_false, detectMachO_of_none _ hmacho, detectELF_of_none _ helf,
    hs1, htext, Bool.false_eq_true, detectByExtension_unrecognised w path _ hext]

theorem detectFileType_default_binary_witness :
    DetectFileType (singleFileWorld [1, 0, 2]) "/tmp/data.bin" = some
      { MIMEType := "application/octet-stream", FileFormat := "Binary file", IsText := false,
        IsBinary := true, IsScript := false, Interpreter := [], Encoding := "" } :=
  detectFileType_default_binary (singleFileWorld [1, 0, 2]) "/tmp/data.bin" [1, 0, 2]
    rfl (by decide) (by decide) (by decide) (by decide) (by decide)

/-! ## fileinfo.go: the record and the symlink chain -/

theorem resolveSymlinkLoop_congr {w w' : World} (hl : w.lstat = w'.lstat)
    (hr : w.readlink = w'.readlink) (hj : w.joinDir = w'.joinDir) (fuel : Nat)
    (current : String) (chain : List String) :
    resolveSymlinkLoop w' fuel current chain = resolveSymlinkLoop w fuel current chain := by
  induction fuel generalizing current chain with
  | zero => rfl
  | succ fuel ih =>
    unfold resolveSymlinkLoop
    rw [hl, hr, hj]
    cases w'.lstat current with
    | none => rfl
    | some info =>
      simp only
      split_ifs
      · rfl
      · cases w'.readlink current with
        | none => rfl
        | some target => exact ih _ _

theorem getPlatformSpecificInfo_congr {w w' : World} (ha : w.goarch = w'.goarch)
    (hu : w.idUser = w'.idUser) (hg : w.idGroup = w'.idGroup) (hid : w.getuid = w'.getuid)
    (fi : FileInfo) (info : Stat) :
    getPlatformSpecificInfo w' fi info = getPlatformSpecificInfo w fi info := by
  unfold getPlatformSpecificInfo
  rw [ha, hu, hg, hid]

theorem getPlatformSpecificInfo_probes {w : World} {fi fi0 : FileInfo} {info : Stat}
    (h : getPlatformSpecificInfo w fi info = some fi0) :
    fi0.FileType = fi.FileType ∧ fi0.BinaryInfo = fi.BinaryInfo ∧ fi0.HashInfo = fi.HashInfo := by
  unfold getPlatformSpecificInfo at h
  cases hs : info.sys with
  | none => simp [hs] at h
  | some ug =>
    obtain ⟨uid, gid⟩ := ug
    simp only [hs, Option.some.injEq] at h
    subst h
    cases w.idUser uid <;> cases w.idGroup gid <;> exact ⟨rfl, rfl, rfl⟩

/-- The record that `GetFileInfo` returns once the platform step has produced `fi0`:
each optional field is what its own probe returned. -/
theorem getFileInfo_fields (w : World) (flag : Bool) (fuel : Nat) (path absPath : String)
    (info : Stat) (chain : List String) (fi0 : FileInfo)
    (habs : w.abs path = some absPath) (hlstat : w.lstat absPath = some info)
    (hchain : resolveSymlinkChain w fuel absPath = some (some chain))
    (hplat : getPlatformSpecificInfo w
      { Path := absPath, Size := info.size, Permissions := fileModeString info.mode,
        SymlinkChain := chain } info = some fi0) :
    ∃ fi, GetFileInfo w flag fuel path = some (.ok fi)
      ∧ fi.FileType = DetectFileType w absPath
      ∧ fi.BinaryInfo = (DetectFileType w absPath).bind
          (fun fileType =>
            if fileType.IsBinary then some (AnalyzeBinary w absPath fileType) else none)
      ∧ fi.HashInfo = (if flag then w.calculateHashes absPath else none)
      ∧ withoutProbes fi = fi0 := by
  obtain ⟨hft, hbi, hhi⟩ := getPlatformSpecificInfo_probes hplat
  simp only at hft hbi hhi
  have hw0 : withoutProbes fi0 = fi0 := by
    cases fi0
    simp only [withoutProbes] at *
    simp only [hft, hbi, hhi]
  unfold GetFileInfo
  simp only [habs, hlstat, hchain, hplat]
  refine ⟨_, rfl, ?_, ?_, ?_, ?_⟩
  · cases hd : DetectFileType w absPath with
    | none => cases flag <;> cases w.calculateHashes absPath <;> simp [hft]
    | some ft =>
      cases flag <;> cases w.calculateHashes absPath <;> cases hb : ft.IsBinary <;> simp [hb]
  · cases hd : DetectFileType w absPath with
    | none => cases flag <;> cases w.calculateHashes absPath <;> simp [hft, hbi]
    | some ft =>
      cases flag <;> cases w.calculateHashes absPath <;> cases hb : ft.IsBinary <;>
        simp [hb, hbi]
  · cases hd : DetectFileType w absPath with
    | none => cases flag <;> cases w.calculateHashes absPath <;> simp [hft, hhi]
    | some ft =>
      cases flag <;> cases w.calculateHashes absPath <;> cases hb : ft.IsBinary <;>
        simp [hb, hhi]
  · rw [← hw0]
    cases hd : DetectFileType w absPath with
    | none => cases flag <;> cases w.calculateHashes absPath <;> simp [hft, withoutProbes]
    | some ft =>
      cases flag <;> cases w.calculateHashes absPath <;> cases hb : ft.IsBinary <;>
        simp [hb, withoutProbes]

/-- C3: when the path, symlink-chain and platform steps succeed, `GetFileInfo` returns a
record without error whatever `DetectFileType` and `CalculateHashes` do. When
`DetectFileType` fails the fields `FileType` and `BinaryInfo` are empty, when
`CalculateHashes` fails the field `HashInfo` is empty. Each optional field is what its
own probe returned: `HashInfo` is the result of `CalculateHashes` (when hashes are
requested) whether `DetectFileType` fails or not, `FileType` is the result of
`DetectFileType` and `BinaryInfo` the analysis of a binary file type whether
`CalculateHashes` fails or not. On every machine that gives the same answers to the
path, symlink and platform steps the record has the same fields apart from the three
optional ones, the same `HashInfo` when its hashes are the same, and the same `FileType`
and `BinaryInfo` when its file type and binary analysis are the same. -/
theorem getFileInfo_best_effort (w : World) (flag : Bool) (fuel : Nat) (path absPath : String)
    (info : Stat) (chain : List String) (fi0 : FileInfo)
    (habs : w.abs path = some absPath) (hlstat : w.lstat absPath = some info)
    (hchain : resolveSymlinkChain w fuel absPath = some (some chain))
    (hplat : getPlatformSpecificInfo w
      { Path := absPath, Size := info.size, Permissions := fileModeString info.mode,
        SymlinkChain := chain } info = some fi0) :
    ∃ fi, GetFileInfo w flag fuel path = some (.ok fi)
      ∧ (DetectFileType w absPath = none → fi.FileType = none ∧ fi.BinaryInfo = none)
      ∧ (w.calculateHashes absPath = none → fi.HashInfo = none)
      ∧ fi.HashInfo = (if flag then w.calculateHashes absPath else none)
      ∧ fi.FileType = DetectFileType w absPath
      ∧ fi.BinaryInfo = (DetectFileType w absPath).bind
          (fun fileType =>
            if fileType.IsBinary then some (AnalyzeBinary w absPath fileType) else none)
      ∧ withoutProbes fi = fi0
      ∧ ∀ (w' : World) (flag' : Bool), SameMetadata w w' →
          ∃ fi', GetFileInfo w' flag' fuel path = some (.ok fi')
            ∧ withoutProbes fi' = withoutProbes fi
            ∧ (flag' = flag → w'.calculateHashes absPath = w.calculateHashes absPath →
                fi'.HashInfo = fi.HashInfo)
            ∧ (DetectFileType w' absPath = DetectFileType w absPath →
                w'.analyzePlatform = w.analyzePlatform →
                fi'.FileType = fi.FileType ∧ fi'.BinaryInfo = fi.BinaryInfo) := by
  obtain ⟨fi, hfi, hft, hbi, hhi, hwp⟩ :=
    getFileInfo_fields w flag fuel path absPath info chain fi0 habs hlstat hchain hplat
  refine ⟨fi, hfi, ?_, ?_, hhi, hft, hbi, hwp, ?_⟩
  · intro hd
    exact ⟨by rw [hft, hd], by rw [hbi, hd]; rfl⟩
  · intro hh
    rw [hhi, hh]
    cases flag <;> rfl
  intro w' flag' hsame
  obtain ⟨h1, h2, h3, h4, h5, h6, h7, h8⟩ := hsame
  have hchain' : resolveSymlinkChain w' fuel absPath = some (some chain) := by
    unfold resolveSymlinkChain at hchain ⊢
    rw [resolveSymlinkLoop_congr h2 h3 h4]; exact hchain
  have hplat' : getPlatformSpecificInfo w'
      { Path := absPath, Size := info.size, Permissions := fileModeString info.mode,
        SymlinkChain := chain } info = some fi0 := by
    rw [getPlatformSpecificInfo_congr h5 h6 h7 h8]; exact hplat
  obtain ⟨fi', hfi', hft', hbi', hhi', hwp'⟩ :=
    getFileInfo_fields w' flag' fuel path absPath info chain fi0 (h1 ▸ habs) (h2 ▸ hlstat)
      hchain' hplat'
  refine ⟨fi', hfi', by rw [hwp', hwp], ?_, ?_⟩
  · intro hflag hhash
    rw [hhi', hhi, hflag, hhash]
  · intro hdet hana
    refine ⟨by rw [hft', hft, hdet], ?_⟩
    rw [hbi', hbi, hdet]
    unfold AnalyzeBinary
    rw [hana]

theorem getFileInfo_best_effort_witness :
    ∃ fi, GetFileInfo emptyFileWorld true 1 "/tmp/empty" = some (.ok fi)
      ∧ fi.FileType = none ∧ fi.BinaryInfo = none
      ∧ fi.HashInfo = emptyFileWorld.calculateHashes "/tmp/empty"
      ∧ fi.HashInfo ≠ none
      ∧ withoutProbes fi =
          { Path := "/tmp/empty", Size := 0, Permissions := "-rw-r--r--", Owner := "dev",
            Group := "dev", Arch := "amd64", OS := "Linux" } :=
  match getFileInfo_best_effort emptyFileWorld true 1 "/tmp/empty" "/tmp/empty"
    ⟨0, 0o644, some (1000, 1000)⟩ []
    { Path := "/tmp/empty", Size := 0, Permissions := "-rw-r--r--", Owner := "dev",
      Group := "dev", Arch := "amd64", OS := "Linux" }
    rfl (by decide) (by decide) (by decide) with
  | ⟨fi, hfi, hdet, _, hhash, _, _, hwp, _⟩ =>
    ⟨fi, hfi, (hdet (by decide)).1, (hdet (by decide)).2, hhash,
      by rw [hhash]; decide, hwp⟩

theorem resolveSymlinkLoop_loopWorld (fuel : Nat) (chain : List String) :
    resolveSymlinkLoop loopWorld fuel "/loop" chain = none := by
  induction fuel generalizing chain with
  | zero => rfl
  | succ fuel ih =>
    unfold resolveSymlinkLoop
    have h1 : loopWorld.lstat "/loop" = some ⟨5, ModeSymlink ||| 0o777, some (0, 0)⟩ := by decide
    have h2 : loopWorld.readlink "/loop" = some "/loop" := by decide
    have h3 : ¬ ((ModeSymlink ||| 0o777) &&& ModeSymlink = 0) := by decide
    have h4 : IsAbs "/loop" = true := by decide
    simp only [h1, h2, h3, if_false, h4, Bool.not_true, Bool.false_eq_true]
    exact ih _

/-- C5 (the code at the failing input): on a machine where `/loop` is a symbolic link to
itself, the loop of `resolveSymlinkChain` started at `/loop` has not returned after any
number of iterations, neither a chain nor an error; and so `GetFileInfo` does not return
either. -/
theorem resolveSymlinkChain_self_link_never_returns :
    (∀ fuel, resolveSymlinkChain loopWorld fuel "/loop" = none)
      ∧ ∀ flag fuel, GetFileInfo loopWorld flag fuel "/loop" = none := by
  have h : ∀ fuel, resolveSymlinkChain loopWorld fuel "/loop" = none :=
    fun fuel => resolveSymlinkLoop_loopWorld fuel []
  refine ⟨h, ?_⟩
  intro flag fuel
  have h0 : loopWorld.abs "/loop" = some "/loop" := rfl
  have h1 : loopWorld.lstat "/loop" = some ⟨5, ModeSymlink ||| 0o777, some (0, 0)⟩ := by decide
  unfold GetFileInfo
  simp only [h0, h1, h fuel]

/-! ## formatter.go: permissions -/

/-- C6 (the code at the failing input): the mode of a sticky world-writable directory
renders as `dtrwxrwxrwx`, with two leading letters, and grants read, write and execute
to owner, group and others, but `parsePermissions` reads the groups one character too
early and reports no permissions for all three. -/
theorem parsePermissions_sticky_dir :
    fileModeString stickyDirMode = "dtrwxrwxrwx"
      ∧ parsePermissions (fileModeString stickyDirMode) =
          { Owner := "--- (no permissions)", Group := "--- (no permissions)",
            Others := "--- (no permissions)" }
      ∧ grantedDescription stickyDirMode 6 = "rwx (read, write, execute)"
      ∧ grantedDescription stickyDirMode 3 = "rwx (read, write, execute)"
      ∧ grantedDescription stickyDirMode 0 = "rwx (read, write, execute)" := by
  decide

set_option maxRecDepth 1000000 in
set_option maxHeartbeats 4000000 in
/-- For a regular file and for a directory without further mode flags, whose mode renders
with one leading character, `parsePermissions` describes the bits that the mode grants. -/
theorem parsePermissions_plain_modes :
    ∀ perm < 512,
      parsePermissions (fileModeString perm)
          = { Owner := grantedDescription perm 6, Group := grantedDescription perm 3,
              Others := grantedDescription perm 0 }
        ∧ parsePermissions (fileModeString (ModeDir ||| perm))
          = { Owner := grantedDescription perm 6, Group := grantedDescription perm 3,
              Others := grantedDescription perm 0 } := by
  decide

/-! ## cmd/root.go: the default mode -/

theorem displayedPaths_append (a b : List Output) :
    displayedPaths (a ++ b) = displayedPaths a ++ displayedPaths b := by
  simp [displayedPaths, List.filterMap_append]

theorem gatherLoop_fst {Info : Type} (c : Cmd Info) (resolve : String → Except String String)
    (hres : c.ResolveCommandFunc = some resolve) (args filePaths : List String)
    (out : List Output) :
    (gatherLoop c args filePaths out).1 = filePaths ++ args.filterMap
      (existsOrResolves (fun a => decide (c.stat a ≠ .notExist)) resolve) := by
  induction args generalizing filePaths out with
  | nil => simp [gatherLoop]
  | cons input rest ih =>
    unfold gatherLoop
    by_cases hs : c.stat input = .notExist
    · simp only [hs, if_true, hres]
      cases hr : resolve input with
      | ok resolved =>
        simp only [ih]
        simp [List.filterMap_cons, existsOrResolves, hs, hr]
      | error e =>
        simp only [ih]
        simp [List.filterMap_cons, existsOrResolves, hs, hr]
    · simp only [hs, if_false, ih]
      simp [List.filterMap_cons, existsOrResolves, hs]

/-- The first loop writes the reports for the unresolved arguments, and nothing else. -/
theorem gatherLoop_snd {Info : Type} (c : Cmd Info) (resolve : String → Except String String)
    (hres : c.ResolveCommandFunc = some resolve) (args filePaths : List String)
    (out : List Output) :
    (gatherLoop c args filePaths out).2 = out ++ unresolvedReports c.stat resolve args := by
  induction args generalizing filePaths out with
  | nil => simp [gatherLoop, unresolvedReports]
  | cons input rest ih =>
    unfold gatherLoop
    by_cases hs : c.stat input = .notExist
    · simp only [hs, if_true, hres]
      cases hr : resolve input with
      | ok resolved =>
        simp only [ih]
        simp [unresolvedReports, List.filterMap_cons, hs, hr]
      | error e =>
        simp only [ih]
        simp [unresolvedReports, List.filterMap_cons, hs, hr]
    · simp only [hs, if_false, ih]
      simp [unresolvedReports, List.filterMap_cons, hs]

theorem displayedPaths_unresolvedReports (stat : String → StatOutcome)
    (resolve : String → Except String String) (args : List String) :
    displayedPaths (unresolvedReports stat resolve args) = [] := by
  induction args with
  | nil => rfl
  | cons a rest ih =>
    unfold unresolvedReports at ih ⊢
    rw [List.filterMap_cons]
    by_cases hs : stat a = .notExist
    · cases hr : resolve a with
      | ok r => simpa [hs, hr] using ih
      | error e =>
        simp only [hs, if_true, hr]
        rw [show (Output.error ("Error: " ++ e ++ "\n") :: List.filterMap _ rest)
          = [Output.error ("Error: " ++ e ++ "\n")] ++ List.filterMap _ rest from rfl,
          displayedPaths_append, ih]
        rfl
    · simpa [hs] using ih

theorem exit_not_mem_unresolvedReports (stat : String → StatOutcome)
    (resolve : String → Except String String) (args : List String) (code : Nat) :
    Output.exit code ∉ unresolvedReports stat resolve args := by
  unfold unresolvedReports
  intro h
  rw [List.mem_filterMap] at h
  obtain ⟨a, _, ha⟩ := h
  by_cases hs : stat a = .notExist
  · cases hr : resolve a with
    | ok r => simp [hs, hr] at ha
    | error e => simp [hs, hr] at ha
  · simp [hs] at ha

/-- The second loop writes, for each file path in turn, what the display step writes for
it, as long as `GetFileInfo` returns. -/
theorem displayLoop_eq {Info : Type} (c : Cmd Info) (total i : Nat)
    (filePaths : List String) (out : List Output)
    (hret : ∀ p ∈ filePaths, (c.GetFileInfoFunc p).isSome = true) :
    displayLoop c total i filePaths out
      = out ++ ((filePaths.enumFrom i).map (displayOf c total)).flatten := by
  induction filePaths generalizing i out with
  | nil => simp [displayLoop]
  | cons p rest ih =>
    have hrest : ∀ q ∈ rest, (c.GetFileInfoFunc q).isSome = true :=
      fun q hq => hret q (List.mem_cons_of_mem _ hq)
    unfold displayLoop
    rw [List.enumFrom_cons, List.map_cons, List.flatten_cons]
    cases hg : c.GetFileInfoFunc p with
    | none =>
      have := hret p (List.mem_cons_self _ _)
      rw [hg] at this
      simp at this
    | some r =>
      cases r with
      | error e =>
        simp only [ih _ _ hrest, displayOf, hg, List.append_assoc]
      | ok info =>
        simp only [ih _ _ hrest, displayOf, hg]
        split_ifs <;> simp [List.append_assoc]

theorem displayedPaths_displayOf {Info : Type} (c : Cmd Info) (total : Nat)
    (l : List (Nat × String)) :
    displayedPaths ((l.map (displayOf c total)).flatten)
      = (l.map Prod.snd).filter (fun p => succeeds (c.GetFileInfoFunc p)) := by
  induction l with
  | nil => rfl
  | cons ip rest ih =>
    rw [List.map_cons, List.flatten_cons, displayedPaths_append, ih, List.map_cons,
      List.filter_cons]
    cases hg : c.GetFileInfoFunc ip.2 with
    | none => simp [displayOf, hg, succeeds, displayedPaths]
    | some r =>
      cases r with
      | error e => simp [displayOf, hg, succeeds, displayedPaths]
      | ok info =>
        unfold displayOf
        simp only [hg, succeeds]
        split_ifs <;> simp [displayedPaths]

theorem exit_not_mem_displayOf {Info : Type} (c : Cmd Info) (total : Nat)
    (l : List (Nat × String)) (code : Nat) :
    Output.exit code ∉ (l.map (displayOf c total)).flatten := by
  intro h
  rw [List.mem_flatten] at h
  obtain ⟨evs, hevs, hmem⟩ := h
  rw [List.mem_map] at hevs
  obtain ⟨ip, _, hip⟩ := hevs
  subst hip
  unfold displayOf at hmem
  cases hg : c.GetFileInfoFunc ip.2 with
  | none => simp [hg] at hmem
  | some r =>
    cases r with
    | error e => simp [hg] at hmem
    | ok info =>
      simp only [hg] at hmem
      split_ifs at hmem <;> simp at hmem

/-- The output of the default mode when `GetFileInfo` returns on every file path. -/
theorem runDefault_eq {Info : Type} (c : Cmd Info)
    (resolve : String → Except String String) (hres : c.ResolveCommandFunc = some resolve)
    (args : List String)
    (hret : ∀ p ∈ args.filterMap
      (existsOrResolves (fun a => decide (c.stat a ≠ .notExist)) resolve),
      (c.GetFileInfoFunc p).isSome = true) :
    runDefault c args = unresolvedReports c.stat resolve args ++
      (if args.filterMap
          (existsOrResolves (fun a => decide (c.stat a ≠ .notExist)) resolve) = [] then
        [.error "Error: No valid files found\n", .exit 1]
      else
        (((args.filterMap
            (existsOrResolves (fun a => decide (c.stat a ≠ .notExist)) resolve)).enum).map
          (displayOf c (args.filterMap
            (existsOrResolves (fun a => decide (c.stat a ≠ .notExist)) resolve)).length)).flatten) := by
  have h1 := gatherLoop_fst c resolve hres args [] []
  simp only [List.nil_append] at h1
  have h2 := gatherLoop_snd c resolve hres args [] []
  simp only [List.nil_append] at h2
  unfold runDefault
  have hpair : gatherLoop c args [] []
      = ((gatherLoop c args [] []).1, (gatherLoop c args [] []).2) := rfl
  rw [hpair]
  simp only
  rw [h1, h2]
  by_cases hnil : args.filterMap
      (existsOrResolves (fun a => decide (c.stat a ≠ .notExist)) resolve) = []
  · simp only [hnil, List.length_nil, if_true]
  · have hlen : ¬ ((args.filterMap
        (existsOrResolves (fun a => decide (c.stat a ≠ .notExist)) resolve)).length = 0) :=
      fun h => hnil (List.length_eq_zero.mp h)
    rw [if_neg hlen, if_neg hnil, displayLoop_eq c _ _ _ _ hret]
    rfl

/-- C4 (as amended): in the default mode, with `ResolveCommand` in place and
`GetFileInfo` returning on every file path, the file paths handed to the display loop
are exactly the arguments for which `os.Stat` does not report "does not exist", kept as
they are, and those that resolve through `PATH`, replaced by the resolved path, in
argument order. An argument that does neither is skipped, and the error of its lookup is
reported on standard error. The output of the run is these reports followed by what the
display step writes for each file path in turn, or by the report that no valid file was
found and the exit with status 1 when no file path is left. So the paths displayed are
the file paths for which `GetFileInfo` succeeds, in the same order, and the run exits
early exactly when no file path is left. -/
theorem runDefault_skips_unresolved {Info : Type} (c : Cmd Info)
    (resolve : String → Except String String) (hres : c.ResolveCommandFunc = some resolve)
    (args : List String)
    (hret : ∀ p ∈ args.filterMap
      (existsOrResolves (fun a => decide (c.stat a ≠ .notExist)) resolve),
      (c.GetFileInfoFunc p).isSome = true) :
    (gatherLoop c args [] []).1
        = args.filterMap (existsOrResolves (fun a => decide (c.stat a ≠ .notExist)) resolve)
      ∧ displayedPaths (runDefault c args)
        = (args.filterMap (existsOrResolves (fun a => decide (c.stat a ≠ .notExist)) resolve)).filter
            (fun p => succeeds (c.GetFileInfoFunc p))
      ∧ (Output.exit 1 ∈ runDefault c args ↔
          args.filterMap (existsOrResolves (fun a => decide (c.stat a ≠ .notExist)) resolve) = [])
      ∧ (∀ input resolveErr, input ∈ args → c.stat input = .notExist →
          resolve input = .error resolveErr →
          Output.error ("Error: " ++ resolveErr ++ "\n") ∈ runDefault c args)
      ∧ runDefault c args = unresolvedReports c.stat resolve args ++
          (if args.filterMap
              (existsOrResolves (fun a => decide (c.stat a ≠ .notExist)) resolve) = [] then
            [.error "Error: No valid files found\n", .exit 1]
          else
            (((args.filterMap
                (existsOrResolves (fun a => decide (c.stat a ≠ .notExist)) resolve)).enum).map
              (displayOf c (args.filterMap
                (existsOrResolves (fun a => decide (c.stat a ≠ .notExist)) resolve)).length)).flatten) := by
  have h1 := gatherLoop_fst c resolve hres args [] []
  simp only [List.nil_append] at h1
  have heq := runDefault_eq c resolve hres args hret
  refine ⟨h1, ?_, ?_, ?_, heq⟩
  · rw [heq, displayedPaths_append, displayedPaths_unresolvedReports, List.nil_append]
    split_ifs with hnil
    · rw [hnil]; rfl
    · rw [displayedPaths_displayOf, List.enum_map_snd]
  · rw [heq]
    split_ifs with hnil
    · exact ⟨fun _ => hnil, fun _ => List.mem_append_right _ (by simp)⟩
    · constructor
      · intro hexit
        rcases List.mem_append.mp hexit with h | h
        · exact absurd h (exit_not_mem_unresolvedReports _ _ _ _)
        · exact absurd h (exit_not_mem_displayOf _ _ _ _)
      · intro h
        exact absurd h hnil
  · intro input resolveErr hin hstat hr
    rw [heq]
    apply List.mem_append_left
    unfold unresolvedReports
    rw [List.mem_filterMap]
    exact ⟨input, hin, by simp [hstat, hr]⟩

theorem runDefault_skips_unresolved_witness :
    runDefault mixedCmd ["/etc/hosts", "nope", "ls", "/etc/fstab"]
      = [.error "Error: command 'nope' not found in PATH\n",
         .info "/etc/hosts" "Path        : /etc/hosts\n", .separator,
         .info "/usr/bin/ls" "Path        : /usr/bin/ls\n", .separator,
         .info "/etc/fstab" "Path        : /etc/fstab\n"] :=
  (runDefault_skips_unresolved mixedCmd onlyLs rfl ["/etc/hosts", "nope", "ls", "/etc/fstab"]
    (fun _ _ => rfl)).2.2.2.2.trans (by decide)

/-- C4 (as stated) fails: `/data/report` exists, so the claim lists it among the
displayed paths, but `GetFileInfo` reports an error for it and nothing is displayed. -/
theorem runDefault_displayed_counterexample :
    ["/data/report"].filterMap
        (existsOrResolves (fun a => decide (brokenInfoCmd.stat a = .found)) notInPath)
        = ["/data/report"]
      ∧ displayedPaths (runDefault brokenInfoCmd ["/data/report"]) = [] := by
  decide

/-- On a link cycle the run stops in the display loop: `/loop` is kept as a file path,
`GetFileInfo` does not return on it, and `/etc/hosts` after it is never displayed. -/
theorem runDefault_cycle_hangs :
    runDefault cycleCmd ["/loop", "/etc/hosts"] = [.hang]
      ∧ displayedPaths (runDefault cycleCmd ["/loop", "/etc/hosts"]) = [] := by
  decide

/-! ## binary.go: formatting -/

theorem join_cons (a : String) (l : List String) : String.join (a :: l) = a ++ String.join l := by
  apply String.ext
  simp [String.data_join]

theorem join_append (l₁ l₂ : List String) :
    String.join (l₁ ++ l₂) = String.join l₁ ++ String.join l₂ := by
  apply String.ext
  simp [String.data_join]

/-- Writing one text per element to a string builder appends the joined texts. -/
theorem foldl_write {α : Type} (f : α → String) (l : List α) (sb : String) :
    l.foldl (fun sb x => sb ++ f x) sb = sb ++ String.join (l.map f) := by
  induction l generalizing sb with
  | nil => simp [String.join]
  | cons x l ih => rw [List.foldl_cons, ih, List.map_cons, join_cons, String.append_assoc]

theorem range_map_getD (g : String → String) (l : List String) (k : Nat) (hk : k ≤ l.length) :
    (List.range k).map (fun i => g (l.getD i "")) = (l.take k).map g := by
  induction k with
  | zero => simp
  | succ k ih =>
    have hlt : k < l.length := by omega
    rw [List.range_succ, List.map_append, ih (by omega), List.take_succ, List.map_append,
      List.getElem?_eq_getElem hlt]
    simp [List.getElem?_eq_getElem hlt]

theorem treeBlock_concat (valueFn treeFn : String → String) (init : List String)
    (last : String) :
    treeBlock valueFn treeFn (init ++ [last])
      = init.map (treeLine valueFn treeFn "├──") ++ [treeLine valueFn treeFn "╰──" last] := by
  unfold treeBlock
  rw [List.getLast?_concat]
  simp only [List.dropLast_concat]

/-- The lines of a loop over all indices of a non-empty list that marks the last index. -/
theorem range_map_last (valueFn treeFn : String → String) (libs : List String)
    (hne : libs ≠ []) :
    (List.range libs.length).map (fun i =>
        if i = libs.length - 1 then treeLine valueFn treeFn "╰──" (libs.getD i "")
        else treeLine valueFn treeFn "├──" (libs.getD i ""))
      = treeBlock valueFn treeFn libs := by
  rcases List.eq_nil_or_concat libs with h | ⟨init, last, h⟩
  · exact absurd h hne
  · rw [List.concat_eq_append] at h
    subst h
    rw [treeBlock_concat]
    simp only [List.length_append, List.length_cons, List.length_nil, Nat.zero_add,
      Nat.add_sub_cancel]
    rw [List.range_succ, List.map_append]
    congr 1
    · rw [← List.take_length init, ← range_map_getD _ init init.length le_rfl]
      simp only [List.take_length]
      apply List.map_congr_left
      intro i hi
      have hi2 : i < init.length := List.mem_range.mp hi
      have hne2 : i ≠ init.length := by omega
      simp only [hne2, if_false]
      rw [List.getD_append _ _ _ _ hi2]
    · simp [List.getD_append_right]

theorem enum_map_last (valueFn treeFn : String → String) (libs : List String) :
    libs.enum.map (fun il =>
        if il.1 = libs.length - 1 then treeLine valueFn treeFn "╰──" il.2
        else treeLine valueFn treeFn "├──" il.2)
      = treeBlock valueFn treeFn libs := by
  rcases List.eq_nil_or_concat libs with h | ⟨init, last, h⟩
  · subst h; rfl
  · rw [List.concat_eq_append] at h
    subst h
    rw [treeBlock_concat, List.enum_append, List.map_append]
    simp only [List.length_append, List.length_cons, List.length_nil, Nat.zero_add,
      Nat.add_sub_cancel]
    congr 1
    · have hcongr : init.enum.map (fun il =>
          if il.1 = init.length then treeLine valueFn treeFn "╰──" il.2
          else treeLine valueFn treeFn "├──" il.2)
          = init.enum.map (fun il => treeLine valueFn treeFn "├──" il.2) := by
        apply List.map_congr_left
        intro il hil
        have hlt := List.fst_lt_of_mem_enum hil
        have hne2 : il.1 ≠ init.length := by omega
        simp only [hne2, if_false]
      rw [hcongr]
      have hcomp : init.enum.map (fun il => treeLine valueFn treeFn "├──" il.2)
          = (init.enum.map Prod.snd).map (treeLine valueFn treeFn "├──") := by
        rw [List.map_map]; rfl
      rw [hcomp, List.enum_map_snd]
    · simp [List.enumFrom]

/-- C7: for a binary with at least one linked library, `FormatBinaryInfo` writes, after
the binary type and the signature, the header `Linked Libraries:` and then one line for
each shown entry: without the full list these are the first ten libraries in order,
followed by `... and n-10 more (use --ll for full list)` exactly when there are more
than ten; with the full list these are all libraries and no such line. Only the last
line of the block has the connector `╰──`, every earlier one has `├──`. -/
theorem formatBinaryInfo_linked_libraries (info : BinaryInfo) (showFullLinkedLibs : Bool)
    (labelFn valueFn treeFn execFn : String → String)
    (hn : 0 < info.LinkedLibraries.length) :
    FormatBinaryInfo info showFullLinkedLibs labelFn valueFn treeFn execFn
      = binaryTypeAndSignature info labelFn valueFn execFn
        ++ labelFn "Linked Libraries:\n"
        ++ String.join (treeBlock valueFn treeFn
            (shownLibraries info.LinkedLibraries showFullLinkedLibs)) := by
  have hne : info.LinkedLibraries ≠ [] := by
    intro h; rw [h] at hn; simp at hn
  have hlen0 : ¬ (info.LinkedLibraries.length = 0) := by omega
  have hstep : ∀ (limit : Nat),
      (fun (sb : String) (i : Nat) =>
        if i = limit - 1 ∧ info.LinkedLibraries.length ≤ limit then
          sb ++ treeLine valueFn treeFn "╰──" (info.LinkedLibraries.getD i "")
        else
          sb ++ treeLine valueFn treeFn "├──" (info.LinkedLibraries.getD i ""))
      = (fun (sb : String) (i : Nat) => sb ++
        (if i = limit - 1 ∧ info.LinkedLibraries.length ≤ limit then
          treeLine valueFn treeFn "╰──" (info.LinkedLibraries.getD i "")
        else
          treeLine valueFn treeFn "├──" (info.LinkedLibraries.getD i ""))) := by
    intro limit
    funext sb i
    split_ifs <;> rfl
  have hhead : (if info.IsExecutable = true then
        (if info.IsStripped = true then
            "" ++ labelFn "Binary Type : " ++ execFn "Executable" ++ valueFn " (stripped)"
          else "" ++ labelFn "Binary Type : " ++ execFn "Executable") ++ "\n"
      else "") =
      (if info.IsExecutable = true then
        labelFn "Binary Type : " ++ execFn "Executable"
          ++ (if info.IsStripped = true then valueFn " (stripped)" else "") ++ "\n"
      else "") := by
    split_ifs <;> simp [String.append_assoc]
  unfold FormatBinaryInfo binaryTypeAndSignature
  have hguard : (!info.IsExecutable && decide (info.LinkedLibraries.length = 0)) = false := by
    simp [hlen0]
  simp only [hguard, Bool.false_eq_true, if_false, hn, gt_iff_lt, if_true]
  have hcond : ∀ (i : Nat),
      (if i = info.LinkedLibraries.length - 1
          ∧ info.LinkedLibraries.length ≤ info.LinkedLibraries.length then
        treeLine valueFn treeFn "╰──" (info.LinkedLibraries.getD i "")
      else treeLine valueFn treeFn "├──" (info.LinkedLibraries.getD i ""))
      = (if i = info.LinkedLibraries.length - 1 then
        treeLine valueFn treeFn "╰──" (info.LinkedLibraries.getD i "")
      else treeLine valueFn treeFn "├──" (info.LinkedLibraries.getD i "")) := by
    intro i
    simp only [le_refl, and_true]
  by_cases htrunc : showFullLinkedLibs = false ∧ 10 < info.LinkedLibraries.length
  · obtain ⟨hfull, hlong⟩ := htrunc
    subst hfull
    have hlim : (if (false || decide (info.LinkedLibraries.length < 10)) = true
        then info.LinkedLibraries.length else 10) = 10 := by
      have : ¬ (info.LinkedLibraries.length < 10) := by omega
      simp [this]
    have hnle : ¬ (info.LinkedLibraries.length ≤ 10) := by omega
    have hshown : shownLibraries info.LinkedLibraries false
        = info.LinkedLibraries.take 10 ++
          ["... and " ++ toString (info.LinkedLibraries.length - 10)
            ++ " more (use --ll for full list)"] := by
      simp [shownLibraries, hlong]
    have hlines : (List.range 10).map (fun i =>
        if i = 10 - 1 ∧ info.LinkedLibraries.length ≤ 10 then
          treeLine valueFn treeFn "╰──" (info.LinkedLibraries.getD i "")
        else treeLine valueFn treeFn "├──" (info.LinkedLibraries.getD i ""))
        = (info.LinkedLibraries.take 10).map (treeLine valueFn treeFn "├──") := by
      rw [← range_map_getD _ _ 10 (by omega)]
      apply List.map_congr_left
      intro i _
      simp [hnle]
    simp only [hlim, Bool.not_false, Bool.true_and, decide_eq_true_eq, hlong, if_true, hstep]
    rw [foldl_write, hshown, treeBlock_concat, join_append, hlines, hhead]
    split_ifs <;> simp [String.join, String.append_assoc]
  · have hlim : (if (showFullLinkedLibs || decide (info.LinkedLibraries.length < 10)) = true
        then info.LinkedLibraries.length else 10) = info.LinkedLibraries.length := by
      cases showFullLinkedLibs with
      | true => simp
      | false =>
        simp only [Bool.false_or, decide_eq_true_eq]
        split_ifs with h
        · rfl
        · simp only [true_and, not_lt] at htrunc
          omega
    have hshown : shownLibraries info.LinkedLibraries showFullLinkedLibs
        = info.LinkedLibraries := by
      unfold shownLibraries
      cases showFullLinkedLibs with
      | true => simp
      | false =>
        simp only [true_and, not_lt] at htrunc
        have : ¬ (info.LinkedLibraries.length > 10) := by omega
        simp [this]
    have hmore : (!showFullLinkedLibs &&
        decide (info.LinkedLibraries.length < info.LinkedLibraries.length)) = false := by
      simp
    simp only [hlim, hmore, Bool.false_eq_true, if_false, hstep]
    rw [foldl_write, hshown]
    simp only [hcond]
    rw [range_map_last valueFn treeFn _ hne, hhead]
    split_ifs <;> simp [String.append_assoc]

theorem formatBinaryInfo_linked_libraries_witness :
    FormatBinaryInfo { LinkedLibraries := ["libm.so.6", "libc.so.6"] } false id id id id
      = binaryTypeAndSignature { LinkedLibraries := ["libm.so.6", "libc.so.6"] } id id id
        ++ id "Linked Libraries:\n"
        ++ String.join (treeBlock id id (shownLibraries ["libm.so.6", "libc.so.6"] false)) :=
  formatBinaryInfo_linked_libraries { LinkedLibraries := ["libm.so.6", "libc.so.6"] } false
    id id id id (by decide)

theorem treeBlock_length (valueFn treeFn : String → String) (libs : List String) :
    (treeBlock valueFn treeFn libs).length = libs.length := by
  rcases List.eq_nil_or_concat libs with h | ⟨init, last, h⟩
  · subst h; rfl
  · rw [List.concat_eq_append] at h
    subst h
    rw [treeBlock_concat]
    simp

theorem formatLinkedLibrariesOnlySection_eq (info : BinaryInfo)
    (labelFn valueFn treeFn : String → String) (hn : 0 < info.LinkedLibraries.length) :
    FormatLinkedLibrariesOnlySection info labelFn valueFn treeFn
      = labelFn "Linked Libraries:\n"
        ++ String.join (treeBlock valueFn treeFn info.LinkedLibraries) := by
  have hlen0 : ¬ (info.LinkedLibraries.length = 0) := by omega
  have hstep :
      (fun (sb : String) (il : Nat × String) =>
        if il.1 = info.LinkedLibraries.length - 1 then
          sb ++ treeLine valueFn treeFn "╰──" il.2
        else sb ++ treeLine valueFn treeFn "├──" il.2)
      = (fun (sb : String) (il : Nat × String) => sb ++
        (if il.1 = info.LinkedLibraries.length - 1 then treeLine valueFn treeFn "╰──" il.2
        else treeLine valueFn treeFn "├──" il.2)) := by
    funext sb il
    split_ifs <;> rfl
  unfold FormatLinkedLibrariesOnlySection
  simp only [hlen0, if_false, hstep]
  rw [foldl_write, enum_map_last]

theorem sprint_label_ne_message (noColor : Bool) (rest path : String) :
    labelColor.Sprint noColor "Linked Libraries:\n" ++ rest
      ≠ "No linked libraries found for " ++ path ++ "\n" := by
  intro h
  have hd := congrArg (fun s => s.data.head?) h
  cases noColor with
  | true =>
    simp [Color.Sprint] at hd
  | false =>
    simp [Color.Sprint, labelColor, escape] at hd

/-- C8: for a binary with `n > 0` linked libraries, `FormatLinkedLibrariesOnlySection`
writes the header `Linked Libraries:` and then exactly `n` lines, one for each library in
the original order, the last with `╰──` and the others with `├──`; this is what
`FormatLinkedLibrariesOnly`, the output of the `--ll` mode, returns for every record with
this binary information, in its colours; and `FormatLinkedLibrariesOnly` returns
`No linked libraries found for <path>` exactly when the record has no binary information
or an empty list of libraries. -/
theorem formatLinkedLibrariesOnly_full_list (disableColors noColor : Bool) (fi : FileInfo)
    (info : BinaryInfo) (labelFn valueFn treeFn : String → String)
    (hn : 0 < info.LinkedLibraries.length) :
    (FormatLinkedLibrariesOnlySection info labelFn valueFn treeFn
        = labelFn "Linked Libraries:\n"
          ++ String.join (treeBlock valueFn treeFn info.LinkedLibraries)
      ∧ (treeBlock valueFn treeFn info.LinkedLibraries).length = info.LinkedLibraries.length)
    ∧ (FormatLinkedLibrariesOnly disableColors noColor fi
          = "No linked libraries found for " ++ fi.Path ++ "\n"
        ↔ (fi.BinaryInfo = none
            ∨ ∃ binaryInfo, fi.BinaryInfo = some binaryInfo
                ∧ binaryInfo.LinkedLibraries = []))
    ∧ (∀ record : FileInfo, record.BinaryInfo = some info →
        FormatLinkedLibrariesOnly disableColors noColor record
          = labelColor.Sprint (if disableColors then true else noColor) "Linked Libraries:\n"
            ++ String.join (treeBlock
                (valueColor.Sprint (if disableColors then true else noColor))
                (treeColor.Sprint (if disableColors then true else noColor))
                info.LinkedLibraries)) := by
  refine ⟨⟨formatLinkedLibrariesOnlySection_eq info labelFn valueFn treeFn hn,
    treeBlock_length _ _ _⟩, ?_, ?_⟩
  · unfold FormatLinkedLibrariesOnly
    cases hb : fi.BinaryInfo with
    | none => simp
    | some b =>
      by_cases hlen : b.LinkedLibraries.length = 0
      · have hnil : b.LinkedLibraries = [] := List.length_eq_zero.mp hlen
        simp [hlen, hnil]
      · have hne : b.LinkedLibraries ≠ [] := fun h => hlen (by rw [h]; rfl)
        simp only [hlen, if_false, Option.some.injEq, exists_eq_left', hne, or_self, iff_false,
          reduceCtorEq, false_or]
        rw [formatLinkedLibrariesOnlySection_eq _ _ _ _ (by omega)]
        exact sprint_label_ne_message _ _ _
  · intro record hrec
    have hlen : ¬ (info.LinkedLibraries.length = 0) := by omega
    unfold FormatLinkedLibrariesOnly
    simp only [hrec, hlen, if_false]
    exact formatLinkedLibrariesOnlySection_eq _ _ _ _ hn

theorem formatLinkedLibrariesOnly_full_list_witness :
    FormatLinkedLibrariesOnly true false
        { Path := "/usr/bin/bc",
          BinaryInfo := some { LinkedLibraries := ["libm.so.6", "libc.so.6"] } }
      = "Linked Libraries:\n  ├── libm.so.6\n  ╰── libc.so.6\n" :=
  ((formatLinkedLibrariesOnly_full_list true false { Path := "/usr/bin/bc" }
    { LinkedLibraries := ["libm.so.6", "libc.so.6"] } id id id (by decide)).2.2
      { Path := "/usr/bin/bc",
        BinaryInfo := some { LinkedLibraries := ["libm.so.6", "libc.so.6"] } } rfl).trans
    (by decide)

/-! ## formatter.go: sizes -/

/-- The lines of a loop over a list that marks the last index. -/
theorem enum_map_mark_last (f g : String → String) (l : List String) :
    l.enum.map (fun il => if il.1 = l.length - 1 then g il.2 else f il.2)
      = match l.getLast? with
        | none => []
        | some last => l.dropLast.map f ++ [g last] := by
  rcases List.eq_nil_or_concat l with h | ⟨init, last, h⟩
  · subst h; rfl
  · rw [List.concat_eq_append] at h
    subst h
    rw [List.getLast?_concat]
    simp only [List.dropLast_concat]
    rw [List.enum_append, List.map_append]
    simp only [List.length_append, List.length_cons, List.length_nil, Nat.zero_add,
      Nat.add_sub_cancel]
    congr 1
    · have hcongr : init.enum.map (fun il => if il.1 = init.length then g il.2 else f il.2)
          = init.enum.map (fun il => f il.2) := by
        apply List.map_congr_left
        intro il hil
        have hlt := List.fst_lt_of_mem_enum hil
        have hne2 : il.1 ≠ init.length := by omega
        simp only [hne2, if_false]
      rw [hcongr]
      have hcomp : init.enum.map (fun il => f il.2) = (init.enum.map Prod.snd).map f := by
        rw [List.map_map]; rfl
      rw [hcomp, List.enum_map_snd]
    · simp [List.enumFrom]

/-- What `FormatFileInfo` writes for the size: the label, the first size line, and the
other size lines as a tree. -/
theorem formatSize_eq (noColor : Bool) (size : Int) (first : String) (rest : List String)
    (h : sizeLines noColor size = first :: rest) :
    formatSize noColor size = some (labelColor.Sprint noColor "Size        : " ++ first
      ++ "\n" ++ String.join (sizeTreeBlock noColor rest)) := by
  have hstep :
      (fun (sb : String) (il : Nat × String) =>
        (if il.1 + 1 = (first :: rest).length - 1 then
          sb ++ "              " ++ treeColor.Sprint noColor "╰─" ++ " "
        else
          sb ++ "              " ++ treeColor.Sprint noColor "├─" ++ " ") ++ il.2 ++ "\n")
      = (fun (sb : String) (il : Nat × String) => sb ++
        (fun (il : Nat × String) =>
          if il.1 + 1 = rest.length then
            "              " ++ treeColor.Sprint noColor "╰─" ++ " " ++ il.2 ++ "\n"
          else "              " ++ treeColor.Sprint noColor "├─" ++ " " ++ il.2 ++ "\n") il) := by
    funext sb il
    simp only [List.length_cons, Nat.add_sub_cancel]
    split_ifs <;> simp only [String.append_assoc]
  unfold formatSize
  simp only [h, hstep]
  rw [foldl_write]
  have hmark : rest.enum.map (fun il =>
        if il.1 + 1 = rest.length then
          "              " ++ treeColor.Sprint noColor "╰─" ++ " " ++ il.2 ++ "\n"
        else "              " ++ treeColor.Sprint noColor "├─" ++ " " ++ il.2 ++ "\n")
      = sizeTreeBlock noColor rest := by
    unfold sizeTreeBlock
    rw [← enum_map_mark_last
      (fun line => "              " ++ treeColor.Sprint noColor "├─" ++ " " ++ line ++ "\n")
      (fun line => "              " ++ treeColor.Sprint noColor "╰─" ++ " " ++ line ++ "\n")]
    apply List.map_congr_left
    intro il hil
    have hlt := List.fst_lt_of_mem_enum hil
    have hiff : (il.1 + 1 = rest.length) ↔ (il.1 = rest.length - 1) := by omega
    simp only [hiff]
  rw [hmark]

/-- The text written for a non-empty list of size lines ends with its last line. -/
theorem sizeBlock_ends (noColor : Bool) (first last : String) (rest : List String)
    (h : (first :: rest).getLast? = some last) :
    ∃ before, labelColor.Sprint noColor "Size        : " ++ first ++ "\n"
        ++ String.join (sizeTreeBlock noColor rest) = before ++ last ++ "\n" := by
  rcases List.eq_nil_or_concat rest with hr | ⟨init, l, hr⟩
  · subst hr
    simp only [List.getLast?_singleton, Option.some.injEq] at h
    subst h
    exact ⟨labelColor.Sprint noColor "Size        : ", by simp [sizeTreeBlock, String.join]⟩
  · rw [List.concat_eq_append] at hr
    subst hr
    have hl : l = last := by
      rw [show first :: (init ++ [l]) = (first :: init) ++ [l] from rfl,
        List.getLast?_concat] at h
      exact Option.some.inj h
    subst hl
    refine ⟨labelColor.Sprint noColor "Size        : " ++ first ++ "\n"
      ++ String.join (init.map (fun line =>
          "              " ++ treeColor.Sprint noColor "├─" ++ " " ++ line ++ "\n"))
      ++ "              " ++ treeColor.Sprint noColor "╰─" ++ " ", ?_⟩
    unfold sizeTreeBlock
    rw [List.getLast?_concat]
    simp only [List.dropLast_concat]
    rw [join_append]
    simp [String.join, String.append_assoc]

/-- C9: for every size (in particular every size that is not negative) the list of size
lines is not empty, so that its first element can be printed; it has between one and
four entries, taken in this order from the GB, MB, KB and bytes lines; and its last entry
is the bytes line, the exact integer followed by ` bytes`. What `FormatFileInfo` writes
for the size is the label, the first size line, and the other size lines as a tree, so
that the text ends with the bytes line. -/
theorem sizeLines_shape (noColor : Bool) (size : Int) :
    sizeLines noColor size ≠ []
      ∧ 1 ≤ (sizeLines noColor size).length ∧ (sizeLines noColor size).length ≤ 4
      ∧ List.Sublist (sizeLines noColor size)
          [gbLine noColor size, mbLine noColor size, kbLine noColor size, bytesLine noColor size]
      ∧ (sizeLines noColor size).getLast? = some (sizeColor.Sprint noColor (toString size ++ " bytes"))
      ∧ (formatSize noColor size).isSome = true
      ∧ formatSize noColor size = some (labelColor.Sprint noColor "Size        : "
          ++ (sizeLines noColor size).headD "" ++ "\n"
          ++ String.join (sizeTreeBlock noColor (sizeLines noColor size).tail))
      ∧ ∃ before, formatSize noColor size
          = some (before ++ sizeColor.Sprint noColor (toString size ++ " bytes") ++ "\n") := by
  have hne : sizeLines noColor size ≠ [] := by
    unfold sizeLines
    simp
  have hlast : (sizeLines noColor size).getLast?
      = some (sizeColor.Sprint noColor (toString size ++ " bytes")) := by
    unfold sizeLines
    simp
  refine ⟨hne, ?_, ?_, ?_, hlast, ?_, ?_, ?_⟩
  · unfold sizeLines
    simp
  · unfold sizeLines
    simp only [List.nil_append]
    split_ifs <;> simp
  · unfold sizeLines gbLine mbLine kbLine bytesLine
    simp only [List.nil_append]
    split_ifs <;>
      repeat (first
        | exact List.Sublist.refl _
        | apply List.Sublist.cons₂
        | apply List.Sublist.cons)
  · unfold formatSize
    cases h : sizeLines noColor size with
    | nil => exact absurd h hne
    | cons first rest => rfl
  · cases h : sizeLines noColor size with
    | nil => exact absurd h hne
    | cons first rest =>
      rw [h] at hlast
      simpa using formatSize_eq noColor size first rest h
  · cases h : sizeLines noColor size with
    | nil => exact absurd h hne
    | cons first rest =>
      rw [h] at hlast
      obtain ⟨before, hb⟩ := sizeBlock_ends noColor first _ rest hlast
      exact ⟨before, by rw [formatSize_eq noColor size first rest h, hb]⟩

/-- The size block of a file of 107374183 bytes, without colours. -/
theorem formatSize_example :
    formatSize true 107374183 = some ("Size        : 0.10 GB\n"
      ++ "              ├─ 102 MB\n"
      ++ "              ├─ 104858 KB\n"
      ++ "              ╰─ 107374183 bytes\n") := by
  decide

/-- C10 (the code at the failing input): a file of exactly 100 MB (104857600 bytes) gets
no GB line, and neither does any size up to 107374182 bytes; the GB line first appears at
107374183 bytes, one tenth of a GB, which is 102.4 MB. -/
theorem sizeLines_gb_threshold :
    sizeLines true (100 * 1024 * 1024) = ["100 MB", "102400 KB", "104857600 bytes"]
      ∧ sizeLines true 107374182 = ["102 MB", "104858 KB", "107374182 bytes"]
      ∧ sizeLines true 107374183 = ["0.10 GB", "102 MB", "104858 KB", "107374183 bytes"] := by
  decide

/-! ## filetype.go: the script branches -/

theorem contains_sh_of_bash {s : Bytes} (h : Contains s (ascii "sh") = false) :
    Contains s (ascii "bash") = false := by
  cases hb : Contains s (ascii "bash") with
  | false => rfl
  | true =>
    rw [contains_iff_occurs] at hb
    have hin : ascii "sh" <:+: ascii "bash" := by
      rw [← contains_iff_occurs]; decide
    have := (contains_iff_occurs s (ascii "sh")).mpr (hin.trans hb)
    rw [h] at this
    exact absurd this (by decide)

/-- The record that `detectScript` returns for a shebang header, with the branch still to
be chosen. -/
theorem detectScript_shebang (header line : Bytes) (info : FileTypeInfo)
    (hshebang : HasPrefix header (ascii "#!") = true)
    (hline : scanFirstLine header = some line)
    (hsh : Contains (TrimSpace (TrimPrefix line (ascii "#!"))) (ascii "sh") = false) :
    detectScript header info =
      if Contains (TrimSpace (TrimPrefix line (ascii "#!"))) (ascii "python") then
        (true, { info with
          IsScript := true, IsText := true,
          Interpreter := TrimSpace (TrimPrefix line (ascii "#!")),
          FileFormat := "Python script", MIMEType := "text/x-python" })
      else if Contains (TrimSpace (TrimPrefix line (ascii "#!"))) (ascii "perl") then
        (true, { info with
          IsScript := true, IsText := true,
          Interpreter := TrimSpace (TrimPrefix line (ascii "#!")),
          FileFormat := "Perl script", MIMEType := "text/x-perl" })
      else if Contains (TrimSpace (TrimPrefix line (ascii "#!"))) (ascii "ruby") then
        (true, { info with
          IsScript := true, IsText := true,
          Interpreter := TrimSpace (TrimPrefix line (ascii "#!")),
          FileFormat := "Ruby script", MIMEType := "text/x-ruby" })
      else if Contains (TrimSpace (TrimPrefix line (ascii "#!"))) (ascii "node")
          ∨ Contains (TrimSpace (TrimPrefix line (ascii "#!"))) (ascii "nodejs") then
        (true, { info with
          IsScript := true, IsText := true,
          Interpreter := TrimSpace (TrimPrefix line (ascii "#!")),
          FileFormat := "Node.js script", MIMEType := "text/javascript" })
      else
        (true, { info with
          IsScript := true, IsText := true,
          Interpreter := TrimSpace (TrimPrefix line (ascii "#!")),
          FileFormat := "Script", MIMEType := "text/plain" }) := by
  have hbash := contains_sh_of_bash hsh
  have hcond : ¬ (header.length < 2 ∨ header.getD 0 0 ≠ 35 ∨ header.getD 1 0 ≠ 33) := by
    have h1 := detectScript_fst header info
    rw [hshebang] at h1
    intro hc
    unfold detectScript at h1
    rw [if_pos hc] at h1
    simp at h1
  unfold detectScript
  rw [if_neg hcond]
  simp only [hline, hbash, hsh, Bool.false_eq_true, if_false]

/-- C11 (as amended): for a header that begins with `#!` and whose interpreter string,
the first line without `#!` and surrounding white space, contains no `sh` (and so no
`bash`), `detectScript` sets `Python script` and `text/x-python` when the string contains
`python`; failing that `Perl script` and `text/x-perl` when it contains `perl`; failing
that `Ruby script` and `text/x-ruby` when it contains `ruby`; failing that
`Node.js script` and `text/javascript` when it contains `node`. -/
theorem detectScript_branches (header line : Bytes) (info : FileTypeInfo)
    (hshebang : HasPrefix header (ascii "#!") = true)
    (hline : scanFirstLine header = some line)
    (hsh : Contains (TrimSpace (TrimPrefix line (ascii "#!"))) (ascii "sh") = false) :
    (Contains (TrimSpace (TrimPrefix line (ascii "#!"))) (ascii "python") = true →
        (detectScript header info).2.FileFormat = "Python script"
          ∧ (detectScript header info).2.MIMEType = "text/x-python")
      ∧ (Contains (TrimSpace (TrimPrefix line (ascii "#!"))) (ascii "python") = false →
          Contains (TrimSpace (TrimPrefix line (ascii "#!"))) (ascii "perl") = true →
        (detectScript header info).2.FileFormat = "Perl script"
          ∧ (detectScript header info).2.MIMEType = "text/x-perl")
      ∧ (Contains (TrimSpace (TrimPrefix line (ascii "#!"))) (ascii "python") = false →
          Contains (TrimSpace (TrimPrefix line (ascii "#!"))) (ascii "perl") = false →
          Contains (TrimSpace (TrimPrefix line (ascii "#!"))) (ascii "ruby") = true →
        (detectScript header info).2.FileFormat = "Ruby script"
          ∧ (detectScript header info).2.MIMEType = "text/x-ruby")
      ∧ (Contains (TrimSpace (TrimPrefix line (ascii "#!"))) (ascii "python") = false →
          Contains (TrimSpace (TrimPrefix line (ascii "#!"))) (ascii "perl") = false →
          Contains (TrimSpace (TrimPrefix line (ascii "#!"))) (ascii "ruby") = false →
          Contains (TrimSpace (TrimPrefix line (ascii "#!"))) (ascii "node") = true →
        (detectScript header info).2.FileFormat = "Node.js script"
          ∧ (detectScript header info).2.MIMEType = "text/javascript") := by
  rw [detectScript_shebang header line info hshebang hline hsh]
  refine ⟨?_, ?_, ?_, ?_⟩
  · intro h1
    simp only [h1, if_true, and_self]
  · intro h1 h2
    simp only [h1, h2, Bool.false_eq_true, if_false, if_true, and_self]
  · intro h1 h2 h3
    simp only [h1, h2, h3, Bool.false_eq_true, if_false, if_true, and_self]
  · intro h1 h2 h3 h4
    simp only [h1, h2, h3, h4, Bool.false_eq_true, if_false, true_or, if_true, and_self]

theorem detectScript_branches_witness :
    ((detectScript (ascii "#!/usr/bin/env python3\n") {}).2.FileFormat = "Python script"
        ∧ (detectScript (ascii "#!/usr/bin/env python3\n") {}).2.MIMEType = "text/x-python")
      ∧ ((detectScript (ascii "#!/usr/bin/perl -w\n") {}).2.FileFormat = "Perl script"
        ∧ (detectScript (ascii "#!/usr/bin/perl -w\n") {}).2.MIMEType = "text/x-perl")
      ∧ ((detectScript (ascii "#!/opt/ruby/bin/ruby\n") {}).2.FileFormat = "Ruby script"
        ∧ (detectScript (ascii "#!/opt/ruby/bin/ruby\n") {}).2.MIMEType = "text/x-ruby")
      ∧ ((detectScript (ascii "#!/usr/local/bin/node\n") {}).2.FileFormat = "Node.js script"
        ∧ (detectScript (ascii "#!/usr/local/bin/node\n") {}).2.MIMEType = "text/javascript") :=
  ⟨(detectScript_branches (ascii "#!/usr/bin/env python3\n") (ascii "#!/usr/bin/env python3") {}
      (by decide) (by decide) (by decide)).1 (by decide),
   (detectScript_branches (ascii "#!/usr/bin/perl -w\n") (ascii "#!/usr/bin/perl -w") {}
      (by decide) (by decide) (by decide)).2.1 (by decide) (by decide),
   (detectScript_branches (ascii "#!/opt/ruby/bin/ruby\n") (ascii "#!/opt/ruby/bin/ruby") {}
      (by decide) (by decide) (by decide)).2.2.1 (by decide) (by decide) (by decide),
   (detectScript_branches (ascii "#!/usr/local/bin/node\n") (ascii "#!/usr/local/bin/node") {}
      (by decide) (by decide) (by decide)).2.2.2 (by decide) (by decide) (by decide) (by decide)⟩

/-- C11 (as stated) fails: the header of `joshPython` begins with `#!` and its interpreter
string `/home/josh/bin/python3` contains `python`, but it also contains `sh`, and
`detectScript` sets `Shell script` and `text/x-shellscript`. -/
theorem detectScript_python_counterexample :
    HasPrefix joshPython (ascii "#!") = true
      ∧ scanFirstLine joshPython = some (ascii "#!/home/josh/bin/python3")
      ∧ TrimSpace (TrimPrefix (ascii "#!/home/josh/bin/python3") (ascii "#!"))
          = ascii "/home/josh/bin/python3"
      ∧ Contains (ascii "/home/josh/bin/python3") (ascii "python") = true
      ∧ detectScript joshPython {} = (true,
          { MIMEType := "text/x-shellscript", FileFormat := "Shell script", IsText := true,
            IsBinary := false, IsScript := true,
            Interpreter := ascii "/home/josh/bin/python3", Encoding := "" }) := by
  decide

/-! ## fileinfo.go: links that lead nowhere -/

/-- Along the links from `p` to `q` the loop of `resolveSymlinkChain` uses one iteration
for each link and collects the links. -/
theorem resolveSymlinkLoop_follows {w : World} {p q : String} {chain : List String}
    (h : Follows w p q chain) (fuel : Nat) (acc : List String) :
    resolveSymlinkLoop w (chain.length + fuel) p acc = resolveSymlinkLoop w fuel q (acc ++ chain) := by
  induction h generalizing acc with
  | here p => simp
  | link p q target info rest hlstat hmode hread hrest ih =>
    have hlen : ((p ++ " \u00e2\u2020\u2019 " ++ (if !IsAbs target then w.joinDir p target else target))
        :: rest).length + fuel = (rest.length + fuel) + 1 := by
      simp only [List.length_cons]; omega
    rw [hlen]
    conv => lhs; unfold resolveSymlinkLoop
    simp only [hlstat, hmode, if_false, hread]
    rw [ih]
    simp

/-- C12 (as amended): a failure while following the symlink chain is fatal. For a path
on which `filepath.Abs` and `os.Lstat` succeed and from which the links lead to a target
that `os.Lstat` does not find, `GetFileInfo` returns the error "failed to resolve symlink
chain" and no record. When the links lead to a path that is not a symbolic link and the
platform step succeeds, `GetFileInfo` returns a record whose chain lists the links
followed. In both cases the loop ends within one iteration more than there are links. -/
theorem getFileInfo_symlink_chain (w : World) (flag : Bool) (fuel : Nat)
    (path absPath q : String) (info : Stat) (chain : List String)
    (habs : w.abs path = some absPath) (hlstat : w.lstat absPath = some info)
    (hfollow : Follows w absPath q chain) (hfuel : chain.length < fuel) :
    (w.lstat q = none → GetFileInfo w flag fuel path = some (.err .symlinkChain))
      ∧ (∀ qinfo fi0, w.lstat q = some qinfo → qinfo.mode &&& ModeSymlink = 0 →
          getPlatformSpecificInfo w
            { Path := absPath, Size := info.size, Permissions := fileModeString info.mode,
              SymlinkChain := chain } info = some fi0 →
          ∃ fi, GetFileInfo w flag fuel path = some (.ok fi) ∧ fi.SymlinkChain = chain) := by
  obtain ⟨k, hk⟩ : ∃ k, fuel = chain.length + (k + 1) := ⟨fuel - chain.length - 1, by omega⟩
  have hloop : resolveSymlinkChain w fuel absPath = resolveSymlinkLoop w (k + 1) q chain := by
    unfold resolveSymlinkChain
    rw [hk, resolveSymlinkLoop_follows hfollow]
    simp
  constructor
  · intro hmissing
    have hres : resolveSymlinkChain w fuel absPath = some none := by
      rw [hloop]
      unfold resolveSymlinkLoop
      simp only [hmissing]
    unfold GetFileInfo
    simp only [habs, hlstat, hres]
  · intro qinfo fi0 hq hmode hplat
    have hres : resolveSymlinkChain w fuel absPath = some (some chain) := by
      rw [hloop]
      unfold resolveSymlinkLoop
      simp only [hq, hmode, if_true]
    obtain ⟨fi, hfi, _, _, _, hwp⟩ :=
      getFileInfo_fields w flag fuel path absPath info chain fi0 habs hlstat hres hplat
    refine ⟨fi, hfi, ?_⟩
    have h1 : (withoutProbes fi).SymlinkChain = fi0.SymlinkChain := by rw [hwp]
    have h2 : fi0.SymlinkChain = chain := by
      unfold getPlatformSpecificInfo at hplat
      cases hs : info.sys with
      | none => simp [hs] at hplat
      | some ug =>
        obtain ⟨uid, gid⟩ := ug
        simp only [hs, Option.some.injEq] at hplat
        subst hplat
        cases w.idUser uid <;> cases w.idGroup gid <;> rfl
    rw [← h2, ← h1]
    rfl

theorem getFileInfo_symlink_chain_witness :
    GetFileInfo linksWorld false 2 "/etc/old.conf" = some (.err .symlinkChain)
      ∧ ∃ fi, GetFileInfo linksWorld false 2 "/etc/app.conf" = some (.ok fi)
          ∧ fi.SymlinkChain = ["/etc/app.conf \u00e2\u2020\u2019 /srv/app.conf"] :=
  ⟨(getFileInfo_symlink_chain linksWorld false 2 "/etc/old.conf" "/etc/old.conf"
      "/srv/old.conf" ⟨13, ModeSymlink ||| 0o777, some (0, 0)⟩
      ["/etc/old.conf \u00e2\u2020\u2019 /srv/old.conf"] rfl (by decide)
      (Follows.link "/etc/old.conf" "/srv/old.conf" "/srv/old.conf"
        ⟨13, ModeSymlink ||| 0o777, some (0, 0)⟩ [] (by decide) (by decide) (by decide)
        (Follows.here "/srv/old.conf"))
      (by decide)).1 (by decide),
   (getFileInfo_symlink_chain linksWorld false 2 "/etc/app.conf" "/etc/app.conf"
      "/srv/app.conf" ⟨13, ModeSymlink ||| 0o777, some (0, 0)⟩
      ["/etc/app.conf \u00e2\u2020\u2019 /srv/app.conf"] rfl (by decide)
      (Follows.link "/etc/app.conf" "/srv/app.conf" "/srv/app.conf"
        ⟨13, ModeSymlink ||| 0o777, some (0, 0)⟩ [] (by decide) (by decide) (by decide)
        (Follows.here "/srv/app.conf"))
      (by decide)).2 ⟨120, 0o644, some (0, 0)⟩
      { Path := "/etc/app.conf", Size := 13, Permissions := "Lrwxrwxrwx", Owner := "root",
        Group := "root", IsWritableByAll := true, Arch := "amd64", OS := "Linux",
        SymlinkChain := ["/etc/app.conf \u00e2\u2020\u2019 /srv/app.conf"] }
      (by decide) (by decide) (by decide)⟩

/-- C12 (as stated) fails: `os.Lstat` succeeds on the link `/etc/old.conf`, whose target
`/srv/old.conf` does not exist, and `GetFileInfo` returns the error "failed to resolve
symlink chain" instead of a record. -/
theorem getFileInfo_dangling_counterexample :
    (linksWorld.lstat "/etc/old.conf").isSome = true
      ∧ linksWorld.readlink "/etc/old.conf" = some "/srv/old.conf"
      ∧ linksWorld.lstat "/srv/old.conf" = none
      ∧ ∀ fuel, 2 ≤ fuel →
          GetFileInfo linksWorld false fuel "/etc/old.conf" = some (.err .symlinkChain) := by
  refine ⟨by decide, by decide, by decide, ?_⟩
  intro fuel hfuel
  obtain ⟨k, hk⟩ : ∃ k, fuel = k + 2 := ⟨fuel - 2, by omega⟩
  subst hk
  have h0 : linksWorld.abs "/etc/old.conf" = some "/etc/old.conf" := rfl
  have h1 : linksWorld.lstat "/etc/old.conf"
      = some ⟨13, ModeSymlink ||| 0o777, some (0, 0)⟩ := by decide
  have h2 : linksWorld.readlink "/etc/old.conf" = some "/srv/old.conf" := by decide
  have h3 : ¬ ((ModeSymlink ||| 0o777) &&& ModeSymlink = 0) := by decide
  have h4 : IsAbs "/srv/old.conf" = true := by decide
  have h5 : linksWorld.lstat "/srv/old.conf" = none := by decide
  have hres : resolveSymlinkChain linksWorld (k + 2) "/etc/old.conf" = some none := by
    unfold resolveSymlinkChain
    unfold resolveSymlinkLoop
    simp only [h1, h2, h3, if_false, h4, Bool.not_true, Bool.false_eq_true]
    unfold resolveSymlinkLoop
    simp only [h5]
  unfold GetFileInfo
  simp only [h0, h1, hres]

end Finfo
